import Mathlib

/-! Conway's Game of Life on an APC mini: the grid, the stepper and the key mapping.

A shallow embedding of `src/game/game.go`, of the publisher and the input
consumer of `src/main.go`, and of the message words and the polling loop of
`src/portmidi/stream.go`.

* A Go `[][]bool` is a `List (List Bool)`; indexing with a Go `int` that is
  negative or not below the length panics, which is `none` here.
* A Go `int` is an `Int`; the additions made on caller-supplied coordinates
  wrap to 64 bits (`wrap64`), and `%` and `/` are Go's truncated remainder and
  quotient (`Int.tmod`, `Int.tdiv`), which panic on a zero divisor.
* The methods mutate through pointers; here they return the new value, inside
  `Option` because every slice access can panic.  The two fields of a `Life`
  are distinct objects (`NewLife` allocates both), so writing one never
  changes the other.
* The MIDI device is the list of `WriteShort` calls made so far; what
  `C.Pm_Read` and `rand.Intn` return is an input of the model.
* The event handler of the input consumer is the sequential program it is on
  its own. Where the two goroutines meet, a schedule is a list of pieces run
  on the shared state, `Step` being cut between its loops and its swap.
-/

namespace game

/-! ## Go primitives -/

/-- Two's-complement wrap of an integer to the 64 bits of a Go `int`. -/
def wrap64 (n : Int) : Int := (n + 9223372036854775808) % 18446744073709551616 - 9223372036854775808

/-- Go's `a % b` on `int`: remainder with the sign of `a`; a zero `b` panics. -/
def goMod (a b : Int) : Option Int := if b = 0 then none else some (Int.tmod a b)

/-- Slice read `s[i]`: panics unless `0 ≤ i < len(s)`. -/
def index {α : Type} (s : List α) (i : Int) : Option α :=
  if 0 ≤ i then s[i.toNat]? else none

/-- Slice write `s[i] = v`: panics unless `0 ≤ i < len(s)`. -/
def store {α : Type} (s : List α) (i : Int) (v : α) : Option (List α) :=
  if 0 ≤ i ∧ i < s.length then some (s.set i.toNat v) else none

/-! ## `Field` -/

/-- The struct `Field`: rows `s` (indexed `s[y][x]`) and the recorded
dimensions `w`, `h`. -/
structure Field where
  s : List (List Bool)
  w : Int
  h : Int
deriving DecidableEq, Repr

/-- `NewField(w, h)`: `h` rows of `w` dead cells; `make` panics on a negative
length. -/
def NewField (w h : Int) : Option Field :=
  if h < 0 then none
  else if 0 < h ∧ w < 0 then none
  else some { s := List.replicate h.toNat (List.replicate w.toNat false), w := w, h := h }

/-- `f.Set(x, y, b)`: `f.s[y][x] = b`. -/
def Field.Set (f : Field) (x y : Int) (b : Bool) : Option Field := do
  let row ← index f.s y
  let row' ← store row x b
  let s' ← store f.s y row'
  some { f with s := s' }

/-- `f.Get(x, y)`: `f.s[y][x]`. -/
def Field.Get (f : Field) (x y : Int) : Option Bool := do
  let row ← index f.s y
  index row x

/-- `f.Alive(x, y)`: `x += f.w; x %= f.w; y += f.h; y %= f.h; return f.s[y][x]`. -/
def Field.Alive (f : Field) (x y : Int) : Option Bool := do
  let x ← goMod (wrap64 (x + f.w)) f.w
  let y ← goMod (wrap64 (y + f.h)) f.h
  let row ← index f.s y
  index row x

/-- The body of the inner loop of `Next` for the offsets `i`, `j`:
`if (j != 0 || i != 0) && f.Alive(x+i, y+j) { alive++ }`. -/
def Field.countCell (f : Field) (x y i : Int) (alive : Int) (j : Int) : Option Int :=
  if j ≠ 0 ∨ i ≠ 0 then do
    let a ← f.Alive (wrap64 (x + i)) (wrap64 (y + j))
    some (if a then alive + 1 else alive)
  else some alive

/-- The two nested loops of `Next`: the number of live neighbours. -/
def Field.countAlive (f : Field) (x y : Int) : Option Int :=
  [-1, 0, 1].foldlM (fun alive i => [-1, 0, 1].foldlM (f.countCell x y i) alive) 0

/-- `f.Next(x, y)`: `alive == 3 || alive == 2 && f.Alive(x, y)`. -/
def Field.Next (f : Field) (x y : Int) : Option Bool := do
  let alive ← f.countAlive x y
  if alive = 3 then some true
  else if alive = 2 then f.Alive x y
  else some false

/-! ## `Life` -/

/-- The struct `Life`: the current field `a`, the staging field `b`, and the
dimensions. -/
structure Life where
  a : Field
  b : Field
  w : Int
  h : Int
deriving DecidableEq, Repr

/-- `NewLife(w, h)`. -/
def NewLife (w h : Int) : Option Life := do
  let a ← NewField w h
  let b ← NewField w h
  some { a := a, b := b, w := w, h := h }

/-- `l.Clear()`: `l.a.Set(x, y, false)` for `y` in `0..h-1`, `x` in `0..w-1`. -/
def Life.Clear (l : Life) : Option Life := do
  let a ← (List.range l.h.toNat).foldlM
    (fun (a : Field) (y : Nat) => (List.range l.w.toNat).foldlM
      (fun (a : Field) (x : Nat) => a.Set (x : Int) (y : Int) false) a) l.a
  some { l with a := a }

/-- `l.W()`. -/
def Life.W (l : Life) : Int := l.w

/-- `l.H()`. -/
def Life.H (l : Life) : Int := l.h

/-- `l.Alive(x, y)`: `l.a.Alive(x, y)`. -/
def Life.Alive (l : Life) (x y : Int) : Option Bool := l.a.Alive x y

/-- `l.Toggle(x, y)`. -/
def Life.Toggle (l : Life) (x y : Int) : Option Life := do
  let v ← l.a.Get x y
  let a ← if v then l.a.Set x y false else l.a.Set x y true
  some { l with a := a }

/-- `l.Step()`: fill `b` from `a.Next`, row by row, then swap `a` and `b`. -/
def Life.Step (l : Life) : Option Life := do
  let b ← (List.range l.h.toNat).foldlM
    (fun (b : Field) (y : Nat) => (List.range l.w.toNat).foldlM
      (fun (b : Field) (x : Nat) => do
        let v ← l.a.Next (x : Int) (y : Int)
        b.Set (x : Int) (y : Int) v) b) l.b
  some { l with a := b, b := l.a }

/-- `l.String()`: one line per row, `'*'` for a live cell and `' '` for a dead
one. The `bytes.Buffer` is the list of characters written so far. -/
def Life.String (l : Life) : Option String := do
  let buf ← (List.range l.h.toNat).foldlM
    (fun (buf : List Char) (y : Nat) => do
      let buf ← (List.range l.w.toNat).foldlM
        (fun (buf : List Char) (x : Nat) => do
          let v ← l.a.Alive (x : Int) (y : Int)
          some (buf ++ [if v then '*' else ' '])) buf
      some (buf ++ ['\n'])) ([] : List Char)
  some (String.mk buf)

/-! ## The key mapping of the input consumer (`src/main.go`) -/

/-- The coordinates computed for a key id in `main`:
`x := int(keyId % 8)`, `y := int(math.Abs(float64(keyId/8) - 7))`.
The quotient is converted to `float64`, 7 is subtracted, the absolute value is
taken and the result is converted back; every step is exact on integers of
magnitude below `2^53`, which covers every key id of a MIDI message. -/
def keyToXY (keyId : Int) : Int × Int :=
  (Int.tmod keyId 8, ((Int.tdiv keyId 8 - 7).natAbs : Int))


/-! ## Well-formed states and the stored cell -/

/-- The cell stored at column `x` of row `y`, with indexes that are natural
numbers. -/
def cell (s : List (List Bool)) (x y : Nat) : Option Bool :=
  match s[y]? with
  | some row => row[x]?
  | none => none

/-- `s` has `h` rows of `w` cells each. -/
def Shape (s : List (List Bool)) (w h : Nat) : Prop :=
  s.length = h ∧ ∀ row ∈ s, row.length = w

/-- A field as `NewField` builds it and `Set` keeps it: `h` rows of `w` cells,
with dimensions whose double fits a Go `int` (each row is an allocated slice
of `w` bytes). -/
def Field.WF (f : Field) : Prop :=
  0 ≤ f.w ∧ 0 ≤ f.h ∧ f.w < 4611686018427387904 ∧ f.h < 4611686018427387904 ∧
    Shape f.s f.w.toNat f.h.toNat

/-- A life as `NewLife` builds it: two well-formed fields of the recorded
dimensions. -/
def Life.WF (l : Life) : Prop :=
  l.a.WF ∧ l.b.WF ∧ l.a.w = l.w ∧ l.a.h = l.h ∧ l.b.w = l.w ∧ l.b.h = l.h

instance (s : List (List Bool)) (w h : Nat) : Decidable (Shape s w h) := by
  unfold Shape; infer_instance

instance (f : Field) : Decidable f.WF := by
  unfold Field.WF; infer_instance

instance (l : Life) : Decidable l.WF := by
  unfold Life.WF; infer_instance

/-- The grid after writing `v` at column `x` of row `y`. -/
def setCell (s : List (List Bool)) (x y : Nat) (v : Bool) : List (List Bool) :=
  s.set y ((s[y]?.getD []).set x v)

/-! ## The rule, stated on a grid given as a function -/

/-- The offsets `(i, j)` in `{-1,0,1} x {-1,0,1}` other than `(0, 0)`. -/
def neighbourOffsets : List (Int × Int) :=
  (List.product [-1, 0, 1] [-1, 0, 1]).filter (fun d => d ≠ (0, 0))

/-- Toroidal image in `0..n-1` of a coordinate in `-n..2n-1`. -/
def wrapCoord (n x : Int) : Int :=
  if x < 0 then x + n else if n ≤ x then x - n else x

/-- Number of neighbour offsets of `(x, y)` whose wrapped cell is alive in the
grid `p` of dimensions `w`, `h`. -/
def neighbourCount (p : Int → Int → Bool) (w h x y : Int) : Nat :=
  (neighbourOffsets.filter (fun d => p (wrapCoord w (x + d.1)) (wrapCoord h (y + d.2)))).length

/-- Number of neighbour offsets `(i, j)` of `(x, y)` for which
`Alive(x+i, y+j)` is true. -/
def Field.liveNeighbours (f : Field) (x y : Int) : Nat :=
  (neighbourOffsets.filter (fun d => f.Alive (x + d.1) (y + d.2) = some true)).length

/-- The rule of the game: alive with exactly 3 live neighbours, or with exactly
2 when already alive. -/
def rule (n : Nat) (a : Bool) : Bool := decide (n = 3) || (decide (n = 2) && a)

/-! ## Concrete states used as instances -/

/-- A 4 x 4 life whose current grid holds the column `(1,0), (1,1), (1,2)` and
whose staging grid holds stale cells. -/
def column4 : Life :=
  { a := { s := [[false, true, false, false], [false, true, false, false],
                 [false, true, false, false], [false, false, false, false]], w := 4, h := 4 },
    b := { s := [[true, true, true, true], [false, false, false, false],
                 [true, false, true, false], [false, false, false, true]], w := 4, h := 4 },
    w := 4, h := 4 }

/-- A 3 x 3 life whose current grid holds the column `(1,0), (1,1), (1,2)`. -/
def column3 : Life :=
  { a := { s := [[false, true, false], [false, true, false], [false, true, false]],
           w := 3, h := 3 },
    b := { s := [[false, false, false], [false, false, false], [false, false, false]],
           w := 3, h := 3 },
    w := 3, h := 3 }

/-- Number of the offsets `-1, 0, 1` whose wrapped coordinate satisfies `a`,
on a line of length `n`. -/
def lineCount (a : Int → Bool) (n x : Int) : Nat :=
  ([-1, 0, 1].filter (fun i => a (wrapCoord n (x + i)))).length

/-- The column `(1,0), (1,1), (1,2)` on a grid 3 wide and 4 high. -/
def column3x4 : Life :=
  { a := { s := [[false, true, false], [false, true, false], [false, true, false],
                 [false, false, false]], w := 3, h := 4 },
    b := { s := [[false, false, false], [false, false, false], [false, false, false],
                 [false, false, false]], w := 3, h := 4 },
    w := 3, h := 4 }

/-- The column `(1,0), (1,1), (1,2)` on a grid 4 wide and 3 high. -/
def column4x3 : Life :=
  { a := { s := [[false, true, false, false], [false, true, false, false],
                 [false, true, false, false]], w := 4, h := 3 },
    b := { s := [[false, false, false, false], [false, false, false, false],
                 [false, false, false, false]], w := 4, h := 3 },
    w := 4, h := 3 }

/-- A 4 x 4 life whose live cells are the 2 x 2 block at `(3, 3)`, which wraps
around both edges: `(3,3), (0,3), (3,0), (0,0)`. -/
def block4 : Life :=
  { a := { s := [[true, false, false, true], [false, false, false, false],
                 [false, false, false, false], [true, false, false, true]], w := 4, h := 4 },
    b := { s := [[false, false, false, false], [false, false, false, false],
                 [false, false, false, false], [false, false, false, false]], w := 4, h := 4 },
    w := 4, h := 4 }

/-- A 4 x 4 life whose only live cell is `(2, 1)`. -/
def lone4 : Life :=
  { a := { s := [[false, false, false, false], [false, false, true, false],
                 [false, false, false, false], [false, false, false, false]], w := 4, h := 4 },
    b := { s := [[false, true, false, false], [false, false, false, false],
                 [false, false, false, false], [false, false, false, false]], w := 4, h := 4 },
    w := 4, h := 4 }

/-! ## The MIDI side: events, message words and the published grid -/

/-- Bit pattern of a Go `int64`: its value modulo `2^64`. -/
def bits64 (x : Int) : Nat := (x % 18446744073709551616).toNat

/-- Go's `a & b` on `int64`: bitwise and of the two's-complement patterns. -/
def goAnd (a b : Int) : Int := wrap64 ((bits64 a &&& bits64 b : Nat) : Int)

/-- Go's `a | b` on `int64`: bitwise or of the two's-complement patterns. -/
def goOr (a b : Int) : Int := wrap64 ((bits64 a ||| bits64 b : Nat) : Int)

/-- Go's `a << k` on `int64`: the product by `2^k`, wrapped to 64 bits. -/
def goShl (a : Int) (k : Nat) : Int := wrap64 (a * 2 ^ k)

/-- Go's `a >> k` on `int64`: arithmetic shift, the quotient by `2^k` rounded
down. -/
def goShr (a : Int) (k : Nat) : Int := a / 2 ^ k

/-- The struct `portmidi.Event`. -/
structure Event where
  Timestamp : Int
  Status : Int
  Data1 : Int
  Data2 : Int
deriving DecidableEq, Repr

/-- The C struct `PmEvent`, as `Stream.Write` fills it and `Stream.read` reads
it. -/
structure PmEvent where
  message : Int
  timestamp : Int
deriving DecidableEq, Repr

/-- The message word built in `Stream.Write`:
`((Data2 << 16) & 0xFF0000) | ((Data1 << 8) & 0xFF00) | (Status & 0xFF)`. -/
def writeMessage (evt : Event) : Int :=
  goOr (goOr (goAnd (goShl evt.Data2 16) 0xFF0000) (goAnd (goShl evt.Data1 8) 0xFF00))
    (goAnd evt.Status 0xFF)

/-- The event decoded in `Stream.read` from one buffer entry:
`message & 0xFF`, `(message >> 8) & 0xFF`, `(message >> 16) & 0xFF`. -/
def readEvent (e : PmEvent) : Event :=
  { Timestamp := e.timestamp,
    Status := goAnd e.message 0xFF,
    Data1 := goAnd (goShr e.message 8) 0xFF,
    Data2 := goAnd (goShr e.message 16) 0xFF }

/-- The errors `Stream.read` returns. -/
inductive ReadError where
  | ErrMaxBuffer
  | ErrMinBuffer
  | pm (code : Int)
deriving DecidableEq, Repr

/-- `s.read(max)`, given what `C.Pm_Read` returned (`numEvents`) and the buffer
as it left it. The outer `Option` is a panic (an index past the buffer). -/
def Stream.read (max : Int) (numEvents : Int) (buffer : List PmEvent) :
    Option (Except ReadError (List Event)) :=
  if max > 1024 then some (.error .ErrMaxBuffer)
  else if max < 1 then some (.error .ErrMinBuffer)
  else if numEvents < 0 then some (.error (.pm numEvents))
  else
    ((List.range numEvents.toNat).foldlM
      (fun (events : List Event) (i : Nat) => do
        let e ← index buffer (i : Int)
        some (events ++ [readEvent e])) ([] : List Event)).map Except.ok

/-- One iteration of the polling loop of `s.Listen()`, after the sleep: the
batches sent on the channel so far are `ch`; `events, err := s.read(1024)`;
`if err != nil { continue }`; `if len(events) > 0 { ch <- events }`. -/
def Stream.listenPoll (ch : List (List Event)) (numEvents : Int) (buffer : List PmEvent) :
    Option (List (List Event)) := do
  let r ← Stream.read 1024 numEvents buffer
  match r with
  | .error _ => some ch
  | .ok events => if events.length > 0 then some (ch ++ [events]) else some ch

/-- `buttonIdFromXY(x, y)`: `int64(56 - y*8 + x)`. -/
def buttonIdFromXY (x y : Int) : Int := wrap64 (wrap64 (56 - wrap64 (y * 8)) + x)

/-- `LifeToMidi(l, apc)`: one `WriteShort(0x90, buttonIdFromXY(x, y), v)` per
cell, row by row; `out` is the list of `(status, data1, data2)` written to the
device so far. -/
def LifeToMidi (l : Life) (out : List (Int × Int × Int)) : Option (List (Int × Int × Int)) :=
  (List.range l.H.toNat).foldlM
    (fun (out : List (Int × Int × Int)) (y : Nat) => (List.range l.W.toNat).foldlM
      (fun (out : List (Int × Int × Int)) (x : Nat) => do
        let v ← l.Alive (x : Int) (y : Int)
        if v then some (out ++ [(0x90, buttonIdFromXY (x : Int) (y : Int), 1)])
        else some (out ++ [(0x90, buttonIdFromXY (x : Int) (y : Int), 0)])) out) out

/-! ## The input consumer (`src/main.go`) -/

/-- State of the input-consumer goroutine: its flag `keep_running`, the life it
works on, and the messages written to the device. -/
structure Consumer where
  keep_running : Bool
  life : Life
  out : List (Int × Int × Int)

/-- The update of the flag for one event:
`if keep_running { keep_running = Status != 128 || Data1 != 82 || Data2 != 127 }`. -/
def flagAfter (keep_running : Bool) (event : Event) : Bool :=
  if keep_running then
    decide (event.Status ≠ 128 ∨ event.Data1 ≠ 82 ∨ event.Data2 ≠ 127)
  else keep_running

/-- The body of `for _, event := range events` in the input consumer. -/
def handleEvent (c : Consumer) (event : Event) : Option Consumer :=
  let keep_running := flagAfter c.keep_running event
  if event.Status = 144 ∧ event.Data1 = 89 ∧ event.Data2 = 127 then do
    let life ← c.life.Clear
    let out ← LifeToMidi life c.out
    some { keep_running := keep_running, life := life, out := out }
  else if event.Status = 144 ∧ event.Data2 = 127 then do
    let keyId := event.Data1
    let life ← c.life.Toggle (keyToXY keyId).1 (keyToXY keyId).2
    some { keep_running := keep_running, life := life, out := c.out }
  else some { keep_running := keep_running, life := c.life, out := c.out }

/-- One batch received from the channel: every event in order, then
`LifeToMidi(life, apc)`. -/
def handleBatch (c : Consumer) (events : List Event) : Option Consumer := do
  let c ← events.foldlM handleEvent c
  let out ← LifeToMidi c.life c.out
  some { c with out := out }

/-! ## `RandomInit` -/

/-- The loop bound of `RandomInit`: `l.w * l.h / 4`. -/
def Life.randomPicks (l : Life) : Int := Int.tdiv (wrap64 (l.w * l.h)) 4

/-- `l.RandomInit()`, where `pick i` is what `rand.Intn(l.w)`, `rand.Intn(l.h)`
return at iteration `i`; `rand.Intn(n)` panics unless `0 < n`. -/
def Life.RandomInit (l : Life) (pick : Nat → Int × Int) : Option Life := do
  let a ← (List.range l.randomPicks.toNat).foldlM
    (fun (a : Field) (i : Nat) =>
      if l.w ≤ 0 ∨ l.h ≤ 0 then none else a.Set (pick i).1 (pick i).2 true) l.a
  some { l with a := a }

/-- Number of live cells stored in a field. -/
def Field.liveCount (f : Field) : Nat := (f.s.map (fun row => row.count true)).sum

/-- The 8 x 8 life of dead cells, as `NewLife(8, 8)` returns it. -/
def dead8 : Life :=
  { a := { s := List.replicate 8 (List.replicate 8 false), w := 8, h := 8 },
    b := { s := List.replicate 8 (List.replicate 8 false), w := 8, h := 8 },
    w := 8, h := 8 }

/-- The input consumer when it starts: running, on the 8 x 8 life of dead
cells, nothing written yet. -/
def consumer8 : Consumer := { keep_running := true, life := dead8, out := [] }

/-! ## The two goroutines on the shared life -/

/-- The loops of `l.Step()` (lines 103 to 107 of `game.go`): the staging field is
filled from the current one; the fields are not swapped yet. -/
def Life.stepFill (l : Life) : Option Life := do
  let b ← (List.range l.h.toNat).foldlM
    (fun (b : Field) (y : Nat) => (List.range l.w.toNat).foldlM
      (fun (b : Field) (x : Nat) => do
        let v ← l.a.Next (x : Int) (y : Int)
        b.Set (x : Int) (y : Int) v) b) l.b
  some { l with b := b }

/-- The last statement of `l.Step()`: `l.a, l.b = l.b, l.a`. -/
def Life.stepSwap (l : Life) : Life := { l with a := l.b, b := l.a }

/-- What the ticker goroutine and the input-consumer goroutine of `main` share:
the life and the device. -/
structure World where
  life : Life
  out : List (Int × Int × Int)
deriving DecidableEq

/-- A whole operation of one of the two goroutines: `life.Step()` (ticker),
`life.Toggle(x, y)` and `life.Clear()` (input consumer), `LifeToMidi` (both). -/
inductive Op where
  | step
  | toggle (x y : Int)
  | clear
  | publish
deriving DecidableEq, Repr

/-- A stretch of an operation that runs without the other goroutine in between.
`main` takes no lock, so the scheduler may switch goroutines inside `Step`:
its loops and its swap are two pieces. -/
inductive Piece where
  | fill
  | swap
  | toggle (x y : Int)
  | clear
  | publish
deriving DecidableEq, Repr

/-- One whole operation on the shared state. -/
def runOp (w : World) : Op → Option World
  | .step => do
    let l ← w.life.Step
    some { w with life := l }
  | .toggle x y => do
    let l ← w.life.Toggle x y
    some { w with life := l }
  | .clear => do
    let l ← w.life.Clear
    some { w with life := l }
  | .publish => do
    let out ← LifeToMidi w.life w.out
    some { w with out := out }

/-- One piece on the shared state. -/
def runPiece (w : World) : Piece → Option World
  | .fill => do
    let l ← w.life.stepFill
    some { w with life := l }
  | .swap => some { w with life := w.life.stepSwap }
  | .toggle x y => do
    let l ← w.life.Toggle x y
    some { w with life := l }
  | .clear => do
    let l ← w.life.Clear
    some { w with life := l }
  | .publish => do
    let out ← LifeToMidi w.life w.out
    some { w with out := out }

/-- The pieces of an operation, in program order. -/
def Op.pieces : Op → List Piece
  | .step => [.fill, .swap]
  | .toggle x y => [.toggle x y]
  | .clear => [.clear]
  | .publish => [.publish]

/-- The 8 x 8 life after the presses of the keys of `(1,0)`, `(1,1)`, `(1,2)`. -/
def column8 : Life :=
  { a := { s := [[false, true, false, false, false, false, false, false],
                 [false, true, false, false, false, false, false, false],
                 [false, true, false, false, false, false, false, false],
                 List.replicate 8 false, List.replicate 8 false, List.replicate 8 false,
                 List.replicate 8 false, List.replicate 8 false], w := 8, h := 8 },
    b := { s := List.replicate 8 (List.replicate 8 false), w := 8, h := 8 },
    w := 8, h := 8 }

end game

namespace game

/-! ## Go primitives on values in range -/

theorem wrap64_of_range (n : Int) (h1 : -9223372036854775808 ≤ n) (h2 : n < 9223372036854775808) :
    wrap64 n = n := by
  unfold wrap64; omega

theorem index_natCast {α : Type} (s : List α) (n : Nat) : index s (n : Int) = s[n]? := by
  simp [index]

theorem index_of_nonneg {α : Type} (s : List α) (i : Int) (h : 0 ≤ i) :
    index s i = s[i.toNat]? := by
  simp [index, h]

theorem store_natCast {α : Type} (s : List α) (n : Nat) (v : α) (h : n < s.length) :
    store s (n : Int) v = some (s.set n v) := by
  simp [store, h]

/-! ## Cells of a grid -/

theorem cell_isSome_of_shape {s : List (List Bool)} {w h x y : Nat} (hs : Shape s w h)
    (hx : x < w) (hy : y < h) : ∃ v, cell s x y = some v := by
  obtain ⟨hl, hr⟩ := hs
  have hy' : y < s.length := by omega
  have hrow : (s[y]).length = w := hr _ (List.getElem_mem _)
  refine ⟨(s[y])[x], ?_⟩
  simp [cell, List.getElem?_eq_getElem hy', List.getElem?_eq_getElem (show x < (s[y]).length by omega)]

theorem cell_none_of_shape {s : List (List Bool)} {w h x y : Nat} (hs : Shape s w h)
    (hxy : ¬ (x < w ∧ y < h)) : cell s x y = none := by
  obtain ⟨hl, hr⟩ := hs
  unfold cell
  by_cases hy : y < s.length
  · have hrow : (s[y]).length = w := hr _ (List.getElem_mem _)
    rw [List.getElem?_eq_getElem hy]
    simp only
    apply List.getElem?_eq_none
    omega
  · rw [List.getElem?_eq_none (by omega)]

theorem shape_setCell {s : List (List Bool)} {w h : Nat} (hs : Shape s w h) (x y : Nat) (v : Bool) :
    Shape (setCell s x y v) w h := by
  obtain ⟨hl, hr⟩ := hs
  refine ⟨by simp [setCell, hl], ?_⟩
  intro row hrow
  unfold setCell at hrow
  rcases List.mem_or_eq_of_mem_set hrow with h1 | h1
  · exact hr _ h1
  · subst h1
    rw [List.length_set]
    by_cases hy : y < s.length
    · rw [List.getElem?_eq_getElem hy]
      exact hr _ (List.getElem_mem _)
    · rw [List.getElem?_eq_none (by omega), List.set_eq_of_length_le (by omega)] at hrow
      rw [List.getElem?_eq_none (by omega)]
      simp only [Option.getD_none, List.set_nil] at hrow
      exact hr _ hrow

theorem cell_setCell {s : List (List Bool)} {w h : Nat} (hs : Shape s w h) {x y : Nat}
    (hx : x < w) (hy : y < h) (v : Bool) (x' y' : Nat) :
    cell (setCell s x y v) x' y' = if x' = x ∧ y' = y then some v else cell s x' y' := by
  obtain ⟨hl, hr⟩ := hs
  have hy' : y < s.length := by omega
  have hrow : (s[y]).length = w := hr _ (List.getElem_mem _)
  unfold cell setCell
  rw [List.getElem?_set]
  by_cases h1 : y = y'
  · subst h1
    simp only [if_pos, hy', List.getElem?_eq_getElem hy', Option.getD_some, and_true]
    rw [List.getElem?_set]
    by_cases h2 : x = x'
    · subst h2
      simp [hrow, hx]
    · have h3 : ¬ x' = x := fun h => h2 h.symm
      simp [h2, h3]
  · have h3 : ¬ y' = y := fun h => h1 h.symm
    simp [h1, h3]

theorem shape_ext {s t : List (List Bool)} {w h : Nat} (hs : Shape s w h) (ht : Shape t w h)
    (hc : ∀ x y, x < w → y < h → cell s x y = cell t x y) : s = t := by
  obtain ⟨hl, hr⟩ := hs
  obtain ⟨hl', hr'⟩ := ht
  apply List.ext_getElem (by omega)
  intro y h1 h2
  have e1 : (s[y]).length = w := hr _ (List.getElem_mem _)
  have e2 : (t[y]).length = w := hr' _ (List.getElem_mem _)
  apply List.ext_getElem (by omega)
  intro x h3 h4
  have := hc x y (by omega) (by omega)
  simpa [cell, List.getElem?_eq_getElem h1, List.getElem?_eq_getElem h2,
    List.getElem?_eq_getElem h3, List.getElem?_eq_getElem h4] using this

/-! ## `Get` and `Set` at natural coordinates -/

theorem Get_natCast (f : Field) (x y : Nat) : f.Get (x : Int) (y : Int) = cell f.s x y := by
  unfold Field.Get cell
  rw [index_natCast]
  cases h : f.s[y]? with
  | none => rfl
  | some row => simp [index_natCast]

theorem Get_eq_cell (f : Field) (x y : Int) (hx : 0 ≤ x) (hy : 0 ≤ y) :
    f.Get x y = cell f.s x.toNat y.toNat := by
  have := Get_natCast f x.toNat y.toNat
  rwa [Int.toNat_of_nonneg hx, Int.toNat_of_nonneg hy] at this

theorem Set_natCast (f : Field) {w h : Nat} (hs : Shape f.s w h) {x y : Nat}
    (hx : x < w) (hy : y < h) (v : Bool) :
    f.Set (x : Int) (y : Int) v = some { f with s := setCell f.s x y v } := by
  obtain ⟨hl, hr⟩ := hs
  have hy' : y < f.s.length := by omega
  have hrow : (f.s[y]).length = w := hr _ (List.getElem_mem _)
  unfold Field.Set setCell
  rw [index_natCast, List.getElem?_eq_getElem hy']
  simp only [Option.bind_eq_bind, Option.some_bind, Option.getD_some]
  rw [store_natCast _ _ _ (by omega)]
  simp only [Option.some_bind]
  rw [store_natCast _ _ _ hy']
  simp

/-! ## The nested loops that write a whole grid -/

theorem fillRow_spec (g : Nat → Option Bool) (gv : Nat → Bool) {w h y : Nat} (hy : y < h) :
    ∀ n : Nat, n ≤ w → (∀ x, x < n → g x = some (gv x)) → ∀ f : Field, Shape f.s w h →
      ∃ f', (List.range n).foldlM
          (fun (b : Field) (x : Nat) => (g x).bind (fun v => b.Set (x : Int) (y : Int) v)) f = some f' ∧
        f'.w = f.w ∧ f'.h = f.h ∧ Shape f'.s w h ∧
        ∀ x' y', cell f'.s x' y' = if y' = y ∧ x' < n then some (gv x') else cell f.s x' y' := by
  intro n
  induction n with
  | zero =>
    intro _ _ f hs
    exact ⟨f, by simp, rfl, rfl, hs, by simp⟩
  | succ n ih =>
    intro hn hg f hs
    obtain ⟨f1, h1, hw1, hh1, hs1, hc1⟩ := ih (by omega) (fun x hx => hg x (by omega)) f hs
    refine ⟨{ f1 with s := setCell f1.s n y (gv n) }, ?_, hw1, hh1, shape_setCell hs1 _ _ _, ?_⟩
    · rw [List.range_succ, List.foldlM_append, h1]
      simp only [Option.bind_eq_bind, Option.some_bind, List.foldlM_cons, List.foldlM_nil,
        hg n (by omega), Set_natCast f1 hs1 (show n < w by omega) hy]
      rfl
    · intro x' y'
      simp only
      rw [cell_setCell hs1 (show n < w by omega) hy, hc1]
      split_ifs with e1 e2 e3 <;>
        first
          | rfl
          | (obtain ⟨e4, _⟩ := e1; subst e4; rfl)
          | (exfalso; omega)

theorem fill_spec (g : Nat → Nat → Option Bool) (gv : Nat → Nat → Bool) {w h : Nat} :
    ∀ m : Nat, m ≤ h → (∀ x y, x < w → y < m → g x y = some (gv x y)) →
      ∀ f : Field, Shape f.s w h →
      ∃ f', (List.range m).foldlM
          (fun (b : Field) (y : Nat) => (List.range w).foldlM
            (fun (b : Field) (x : Nat) => (g x y).bind (fun v => b.Set (x : Int) (y : Int) v)) b) f
            = some f' ∧
        f'.w = f.w ∧ f'.h = f.h ∧ Shape f'.s w h ∧
        ∀ x' y', cell f'.s x' y' = if y' < m ∧ x' < w then some (gv x' y') else cell f.s x' y' := by
  intro m
  induction m with
  | zero =>
    intro _ _ f hs
    exact ⟨f, by simp, rfl, rfl, hs, by simp⟩
  | succ m ih =>
    intro hm hg f hs
    obtain ⟨f1, h1, hw1, hh1, hs1, hc1⟩ := ih (by omega) (fun x y hx hy => hg x y hx (by omega)) f hs
    obtain ⟨f2, h2, hw2, hh2, hs2, hc2⟩ :=
      fillRow_spec (fun x => g x m) (fun x => gv x m) (show m < h by omega) w (le_refl w)
        (fun x hx => hg x m hx (by omega)) f1 hs1
    refine ⟨f2, ?_, hw2.trans hw1, hh2.trans hh1, hs2, ?_⟩
    · rw [List.range_succ, List.foldlM_append, h1]
      simp only [Option.bind_eq_bind, Option.some_bind, List.foldlM_cons, List.foldlM_nil]
      rw [h2]
      rfl
    · intro x' y'
      rw [hc2, hc1]
      split_ifs with e1 e2 e3 <;>
        first
          | rfl
          | (obtain ⟨e4, _⟩ := e1; subst e4; rfl)
          | (exfalso; omega)

/-! ## `Alive` on coordinates one grid away at most -/

theorem goMod_of_nonneg (a b : Int) (ha : 0 ≤ a) (hb : 0 < b) : goMod a b = some (a % b) := by
  unfold goMod
  rw [if_neg (by omega), Int.tmod_eq_emod ha (by omega)]

theorem add_emod_eq_wrapCoord (n x : Int) (h1 : -n ≤ x) (h2 : x < 2 * n) :
    (x + n) % n = wrapCoord n x := by
  unfold wrapCoord
  rw [Int.add_emod_self]
  split_ifs with h3 h4
  · rw [← Int.add_emod_self, Int.emod_eq_of_lt (by omega) (by omega)]
  · have e : x % n = (x - n) % n := by
      have := @Int.add_emod_self (x - n) n
      rw [Int.sub_add_cancel] at this
      exact this
    rw [e, Int.emod_eq_of_lt (by omega) (by omega)]
  · rw [Int.emod_eq_of_lt (by omega) (by omega)]

theorem wrapCoord_range (n x : Int) (h1 : -n ≤ x) (h2 : x < 2 * n) :
    0 ≤ wrapCoord n x ∧ wrapCoord n x < n := by
  unfold wrapCoord
  split_ifs <;> omega

theorem Alive_eq_Get (f : Field) (hf : f.WF) (x y : Int)
    (hx1 : -f.w ≤ x) (hx2 : x ≤ f.w) (hy1 : -f.h ≤ y) (hy2 : y ≤ f.h)
    (hw : 1 ≤ f.w) (hh : 1 ≤ f.h) :
    f.Alive x y = f.Get (wrapCoord f.w x) (wrapCoord f.h y) := by
  obtain ⟨hw0, hh0, hw, hh, _⟩ := hf
  unfold Field.Alive Field.Get
  rw [wrap64_of_range _ (by omega) (by omega), wrap64_of_range _ (by omega) (by omega),
    goMod_of_nonneg _ _ (by omega) (by omega), goMod_of_nonneg _ _ (by omega) (by omega),
    add_emod_eq_wrapCoord _ _ hx1 (by omega), add_emod_eq_wrapCoord _ _ hy1 (by omega)]
  rfl

theorem Get_isSome (f : Field) (hf : f.WF) (x y : Int)
    (hx1 : 0 ≤ x) (hx2 : x < f.w) (hy1 : 0 ≤ y) (hy2 : y < f.h) : ∃ v, f.Get x y = some v := by
  obtain ⟨_, _, _, _, hs⟩ := hf
  rw [Get_eq_cell f x y hx1 hy1]
  exact cell_isSome_of_shape hs (by omega) (by omega)

theorem wrapCoord_of_range (n x : Int) (h1 : 0 ≤ x) (h2 : x < n) : wrapCoord n x = x := by
  unfold wrapCoord
  split_ifs <;> omega

theorem Alive_inBounds (f : Field) (hf : f.WF) (x y : Int)
    (hx1 : 0 ≤ x) (hx2 : x < f.w) (hy1 : 0 ≤ y) (hy2 : y < f.h) : f.Alive x y = f.Get x y := by
  rw [Alive_eq_Get f hf x y (by omega) (by omega) (by omega) (by omega) (by omega) (by omega),
    wrapCoord_of_range _ _ hx1 hx2, wrapCoord_of_range _ _ hy1 hy2]

/-! ## `Next` computes the rule -/

theorem neighbourOffsets_eq :
    neighbourOffsets = [(-1, -1), (-1, 0), (-1, 1), (0, -1), (0, 1), (1, -1), (1, 0), (1, 1)] := by
  decide

theorem countAlive_eq (f : Field) (x y : Int) (a : Int → Int → Bool)
    (hA : ∀ d ∈ neighbourOffsets,
      f.Alive (wrap64 (x + d.1)) (wrap64 (y + d.2)) = some (a d.1 d.2)) :
    f.countAlive x y
      = some (((neighbourOffsets.filter (fun d => a d.1 d.2)).length : Nat) : Int) := by
  have h1 := hA (-1, -1) (by decide)
  have h2 := hA (-1, 0) (by decide)
  have h3 := hA (-1, 1) (by decide)
  have h4 := hA (0, -1) (by decide)
  have h5 := hA (0, 1) (by decide)
  have h6 := hA (1, -1) (by decide)
  have h7 := hA (1, 0) (by decide)
  have h8 := hA (1, 1) (by decide)
  simp only at h1 h2 h3 h4 h5 h6 h7 h8
  rw [neighbourOffsets_eq]
  unfold Field.countAlive
  simp only [List.foldlM_cons, List.foldlM_nil, Field.countCell, h1, h2, h3, h4, h5, h6, h7, h8,
    Option.bind_eq_bind, Option.some_bind, List.filter_cons, List.filter_nil]
  generalize a (-1) (-1) = b1
  generalize a (-1) 0 = b2
  generalize a (-1) 1 = b3
  generalize a 0 (-1) = b4
  generalize a 0 1 = b5
  generalize a 1 (-1) = b6
  generalize a 1 0 = b7
  generalize a 1 1 = b8
  cases b1 <;> cases b2 <;> cases b3 <;> cases b4 <;> cases b5 <;> cases b6 <;> cases b7 <;>
    cases b8 <;> rfl

theorem mem_neighbourOffsets_range {d : Int × Int} (hd : d ∈ neighbourOffsets) :
    -1 ≤ d.1 ∧ d.1 ≤ 1 ∧ -1 ≤ d.2 ∧ d.2 ≤ 1 := by
  rw [neighbourOffsets_eq] at hd
  simp only [List.mem_cons, List.mem_singleton, List.not_mem_nil, or_false] at hd
  rcases hd with h | h | h | h | h | h | h | h <;> subst h <;> decide

theorem Alive_neighbour (f : Field) (hf : f.WF) (hw : 1 ≤ f.w) (hh : 1 ≤ f.h)
    (p : Int → Int → Bool)
    (hp : ∀ c r, 0 ≤ c → c < f.w → 0 ≤ r → r < f.h → f.Get c r = some (p c r))
    (x y : Int) (hx1 : 0 ≤ x) (hx2 : x < f.w) (hy1 : 0 ≤ y) (hy2 : y < f.h)
    (i j : Int) (hi1 : -1 ≤ i) (hi2 : i ≤ 1) (hj1 : -1 ≤ j) (hj2 : j ≤ 1) :
    f.Alive (x + i) (y + j) = some (p (wrapCoord f.w (x + i)) (wrapCoord f.h (y + j))) := by
  rw [Alive_eq_Get f hf _ _ (by omega) (by omega) (by omega) (by omega) hw hh]
  have r1 := wrapCoord_range f.w (x + i) (by omega) (by omega)
  have r2 := wrapCoord_range f.h (y + j) (by omega) (by omega)
  exact hp _ _ r1.1 r1.2 r2.1 r2.2

theorem Next_eq_rule (f : Field) (hf : f.WF) (hw : 1 ≤ f.w) (hh : 1 ≤ f.h)
    (p : Int → Int → Bool)
    (hp : ∀ c r, 0 ≤ c → c < f.w → 0 ≤ r → r < f.h → f.Get c r = some (p c r))
    (x y : Int) (hx1 : 0 ≤ x) (hx2 : x < f.w) (hy1 : 0 ≤ y) (hy2 : y < f.h) :
    f.Next x y = some (rule (neighbourCount p f.w f.h x y) (p x y)) := by
  have hwf := hf
  obtain ⟨_, _, hwb, hhb, _⟩ := hf
  have hc : f.countAlive x y = some ((neighbourCount p f.w f.h x y : Nat) : Int) := by
    apply countAlive_eq f x y (fun i j => p (wrapCoord f.w (x + i)) (wrapCoord f.h (y + j)))
    intro d hd
    obtain ⟨a1, a2, a3, a4⟩ := mem_neighbourOffsets_range hd
    rw [wrap64_of_range _ (by omega) (by omega), wrap64_of_range _ (by omega) (by omega)]
    exact Alive_neighbour f hwf hw hh p hp x y hx1 hx2 hy1 hy2 _ _ a1 a2 a3 a4
  have hself : f.Alive x y = some (p x y) := by
    rw [Alive_inBounds f hwf x y hx1 hx2 hy1 hy2]
    exact hp x y hx1 hx2 hy1 hy2
  unfold Field.Next
  rw [hc, hself]
  simp only [Option.bind_eq_bind, Option.some_bind, rule]
  generalize neighbourCount p f.w f.h x y = n
  by_cases h3 : n = 3
  · subst h3; simp
  · by_cases h2 : n = 2
    · subst h2; simp
    · have e3 : ¬ ((n : Int) = 3) := by omega
      have e2 : ¬ ((n : Int) = 2) := by omega
      simp [h3, h2, e3, e2]

/-- The stored value of an in-bounds cell, `false` outside the grid. -/
theorem Get_getD (f : Field) (hf : f.WF) (c r : Int)
    (hc1 : 0 ≤ c) (hc2 : c < f.w) (hr1 : 0 ≤ r) (hr2 : r < f.h) :
    f.Get c r = some ((f.Get c r).getD false) := by
  obtain ⟨v, hv⟩ := Get_isSome f hf c r hc1 hc2 hr1 hr2
  rw [hv]; rfl

theorem liveNeighbours_eq (f : Field) (hf : f.WF) (hw : 1 ≤ f.w) (hh : 1 ≤ f.h)
    (p : Int → Int → Bool)
    (hp : ∀ c r, 0 ≤ c → c < f.w → 0 ≤ r → r < f.h → f.Get c r = some (p c r))
    (x y : Int) (hx1 : 0 ≤ x) (hx2 : x < f.w) (hy1 : 0 ≤ y) (hy2 : y < f.h) :
    f.liveNeighbours x y = neighbourCount p f.w f.h x y := by
  unfold Field.liveNeighbours neighbourCount
  congr 1
  apply List.filter_congr
  intro d hd
  obtain ⟨a1, a2, a3, a4⟩ := mem_neighbourOffsets_range hd
  rw [Alive_neighbour f hf hw hh p hp x y hx1 hx2 hy1 hy2 _ _ a1 a2 a3 a4]
  simp

/-! ## `Step` -/

theorem Field.ext_of_Get (f g : Field) (hf : f.WF) (hg : g.WF) (hw : f.w = g.w) (hh : f.h = g.h)
    (hc : ∀ x y, 0 ≤ x → x < f.w → 0 ≤ y → y < f.h → f.Get x y = g.Get x y) : f = g := by
  obtain ⟨fs, fw, fh⟩ := f
  obtain ⟨gs, gw, gh⟩ := g
  simp only at hw hh hc
  subst hw; subst hh
  obtain ⟨h0, h1, _, _, hsf⟩ := hf
  obtain ⟨_, _, _, _, hsg⟩ := hg
  simp only at h0 h1 hsf hsg
  have : fs = gs := by
    apply shape_ext hsf hsg
    intro x y hx hy
    have := hc x y (by omega) (by omega) (by omega) (by omega)
    rwa [Get_natCast, Get_natCast] at this
  rw [this]

theorem Step_spec (l : Life) (hl : l.WF) (hw : 1 ≤ l.w) (hh : 1 ≤ l.h)
    (p : Int → Int → Bool)
    (hp : ∀ c r, 0 ≤ c → c < l.w → 0 ≤ r → r < l.h → l.a.Get c r = some (p c r)) :
    ∃ l', l.Step = some l' ∧ l'.WF ∧ l'.w = l.w ∧ l'.h = l.h ∧ l'.b = l.a ∧
      ∀ x y, 0 ≤ x → x < l.w → 0 ≤ y → y < l.h →
        l.a.Next x y = some (rule (neighbourCount p l.w l.h x y) (p x y)) ∧
        l'.a.Get x y = some (rule (neighbourCount p l.w l.h x y) (p x y)) := by
  obtain ⟨ha, hb, haw, hah, hbw, hbh⟩ := hl
  have hN : ∀ x y, 0 ≤ x → x < l.w → 0 ≤ y → y < l.h →
      l.a.Next x y = some (rule (neighbourCount p l.w l.h x y) (p x y)) := by
    intro x y hx1 hx2 hy1 hy2
    have := Next_eq_rule l.a ha (by omega) (by omega) p
      (by rw [haw, hah]; exact hp) x y hx1 (by omega) hy1 (by omega)
    rwa [haw, hah] at this
  have hbs : Shape l.b.s l.w.toNat l.h.toNat := by
    have := hb.2.2.2.2
    rwa [hbw, hbh] at this
  obtain ⟨f', h1, hw1, hh1, hs1, hc1⟩ :=
    fill_spec (fun x y => l.a.Next (x : Int) (y : Int))
      (fun x y => rule (neighbourCount p l.w l.h x y) (p x y)) l.h.toNat (le_refl _)
      (fun x y hx hy => hN x y (by omega) (by omega) (by omega) (by omega)) l.b hbs
  have hf' : f'.WF := by
    refine ⟨by omega, by omega, ?_, ?_, ?_⟩
    · rw [hw1]; exact hb.2.2.1
    · rw [hh1]; exact hb.2.2.2.1
    · rw [hw1, hh1, hbw, hbh]; exact hs1
  refine ⟨{ l with a := f', b := l.a }, ?_, ⟨hf', ha, by simp only; omega, by simp only; omega,
    haw, hah⟩, rfl, rfl, rfl, ?_⟩
  · unfold Life.Step
    simp only [Option.bind_eq_bind] at h1 ⊢
    rw [h1]
    rfl
  · intro x y hx1 hx2 hy1 hy2
    refine ⟨hN x y hx1 hx2 hy1 hy2, ?_⟩
    simp only
    rw [Get_eq_cell _ _ _ hx1 hy1, hc1, if_pos (by omega), Int.toNat_of_nonneg hx1,
      Int.toNat_of_nonneg hy1]

/-! ## The claims about `Step`, `Next` and `Alive` -/

/-- C1: on a life with positive dimensions `Step` returns, and in the new
current grid every in-bounds cell `(x, y)` holds the value of `Next(x, y)` on
the current grid as it was before the step; the new current grid is the same
whatever the staging grid held. -/
theorem Step_computes_Next_of_old (l : Life) (hl : l.WF) (hw : 1 ≤ l.w) (hh : 1 ≤ l.h) :
    ∃ l', l.Step = some l' ∧
      (∀ x y, 0 ≤ x → x < l.w → 0 ≤ y → y < l.h →
        ∃ v, l.a.Next x y = some v ∧ l'.a.Get x y = some v ∧ l'.Alive x y = some v) ∧
      (∀ b2 : Field, b2.WF → b2.w = l.w → b2.h = l.h →
        ∃ l2, Life.Step { l with b := b2 } = some l2 ∧ l2.a = l'.a) := by
  have hp := fun c r h1 h2 h3 h4 =>
    Get_getD l.a hl.1 c r h1 (by rw [hl.2.2.1]; exact h2) h3 (by rw [hl.2.2.2.1]; exact h4)
  obtain ⟨l', h1, hwf, hw', hh', _, hc⟩ :=
    Step_spec l hl hw hh (fun c r => (l.a.Get c r).getD false) hp
  refine ⟨l', h1, ?_, ?_⟩
  · intro x y hx1 hx2 hy1 hy2
    obtain ⟨e1, e2⟩ := hc x y hx1 hx2 hy1 hy2
    refine ⟨_, e1, e2, ?_⟩
    unfold Life.Alive
    rw [Alive_inBounds l'.a hwf.1 x y hx1 (by rw [hwf.2.2.1, hw']; exact hx2) hy1
      (by rw [hwf.2.2.2.1, hh']; exact hy2)]
    exact e2
  · intro b2 hb2 hbw hbh
    obtain ⟨l2, g1, gwf, gw', gh', _, gc⟩ :=
      Step_spec { l with b := b2 } ⟨hl.1, hb2, hl.2.2.1, hl.2.2.2.1, hbw, hbh⟩ hw hh
        (fun c r => (l.a.Get c r).getD false) hp
    refine ⟨l2, g1, ?_⟩
    have ew : l2.a.w = l'.a.w := by rw [gwf.2.2.1, hwf.2.2.1, gw', hw']
    have eh : l2.a.h = l'.a.h := by rw [gwf.2.2.2.1, hwf.2.2.2.1, gh', hh']
    apply Field.ext_of_Get _ _ gwf.1 hwf.1 ew eh
    intro x y hx1 hx2 hy1 hy2
    have hx3 : x < l.w := by rw [gwf.2.2.1, gw'] at hx2; exact hx2
    have hy3 : y < l.h := by rw [gwf.2.2.2.1, gh'] at hy2; exact hy2
    rw [(gc x y hx1 hx3 hy1 hy3).2, (hc x y hx1 hx3 hy1 hy3).2]

/-- C1, instance: the 4 x 4 column with a stale staging grid. -/
theorem Step_computes_Next_of_old_witness :
    ∃ l', column4.Step = some l' ∧
      (∀ x y, 0 ≤ x → x < column4.w → 0 ≤ y → y < column4.h →
        ∃ v, column4.a.Next x y = some v ∧ l'.a.Get x y = some v ∧ l'.Alive x y = some v) ∧
      (∀ b2 : Field, b2.WF → b2.w = column4.w → b2.h = column4.h →
        ∃ l2, Life.Step { column4 with b := b2 } = some l2 ∧ l2.a = l'.a) :=
  Step_computes_Next_of_old column4 (by decide) (by decide) (by decide)

/-- C2: on a field with positive dimensions and an in-bounds `(x, y)`, `Next`
returns, and it returns true exactly when the number `n` of neighbour offsets
`(i, j)` with `Alive(x+i, y+j)` true is 3, or is 2 and `Alive(x, y)` is true. -/
theorem Next_true_iff (f : Field) (hf : f.WF) (hw : 1 ≤ f.w) (hh : 1 ≤ f.h)
    (x y : Int) (hx1 : 0 ≤ x) (hx2 : x < f.w) (hy1 : 0 ≤ y) (hy2 : y < f.h) :
    ∃ b, f.Next x y = some b ∧
      (b = true ↔ f.liveNeighbours x y = 3 ∨
        (f.liveNeighbours x y = 2 ∧ f.Alive x y = some true)) := by
  have hp := Get_getD f hf
  refine ⟨_, Next_eq_rule f hf hw hh _ hp x y hx1 hx2 hy1 hy2, ?_⟩
  rw [liveNeighbours_eq f hf hw hh _ hp x y hx1 hx2 hy1 hy2,
    Alive_inBounds f hf x y hx1 hx2 hy1 hy2]
  obtain ⟨v, hv⟩ := Get_isSome f hf x y hx1 hx2 hy1 hy2
  simp [rule, hv]

/-- C2, instance: the cell `(0, 1)` of the 4 x 4 column, which has three live
neighbours. -/
theorem Next_true_iff_witness :
    ∃ b, column4.a.Next 0 1 = some b ∧
      (b = true ↔ column4.a.liveNeighbours 0 1 = 3 ∨
        (column4.a.liveNeighbours 0 1 = 2 ∧ column4.a.Alive 0 1 = some true)) :=
  Next_true_iff column4.a (by decide) (by decide) (by decide) 0 1
    (by decide) (by decide) (by decide) (by decide)

/-- C3, at the failing input: on the 3 x 3 field of dead cells, `Alive(1, 0)`
returns false, while `Alive(1 + (-2)*3, 0)` indexes a row at `-2` and panics;
one grid to the left, `Alive(1 + (-1)*3, 0)`, it still returns. -/
theorem Alive_two_grids_left_panics :
    ∃ f, NewField 3 3 = some f ∧ f.Alive 1 0 = some false ∧
      f.Alive (1 + (-1) * f.w) (0 + 0 * f.h) = some false ∧
      f.Alive (1 + (-2) * f.w) (0 + 0 * f.h) = none :=
  ⟨_, rfl, by decide, by decide, by decide⟩

/-- C5: from `NewLife(8, 8)`, the toggles of `(3,3)`, `(4,3)`, `(5,3)` and one
`Step` all return, and the current grid is then alive exactly at `(4,2)`,
`(4,3)`, `(4,4)` among the 64 coordinates. -/
theorem blinker_8x8_end_to_end :
    ∃ l0 l1 l2 l3 l4, NewLife 8 8 = some l0 ∧ l0.Toggle 3 3 = some l1 ∧
      l1.Toggle 4 3 = some l2 ∧ l2.Toggle 5 3 = some l3 ∧ l3.Step = some l4 ∧
      (∀ x y : Fin 8, l0.a.Get (x.val : Int) (y.val : Int) = some false) ∧
      (∀ x y : Fin 8, l4.a.Get (x.val : Int) (y.val : Int)
        = some (decide (x.val = 4 ∧ (y.val = 2 ∨ y.val = 3 ∨ y.val = 4)))) ∧
      (∀ x y : Fin 8, l4.Alive (x.val : Int) (y.val : Int)
        = some (decide (x.val = 4 ∧ (y.val = 2 ∨ y.val = 3 ∨ y.val = 4)))) := by
  refine ⟨_, _, _, _, _, rfl, rfl, rfl, rfl, rfl, ?_, ?_, ?_⟩ <;> decide

end game

namespace game
/-! ## Grids that are a product of a set of columns and a set of rows -/

theorem lineCount_eq (a : Int → Bool) (n x : Int) :
    lineCount a n x = (if a (wrapCoord n (x + -1)) then 1 else 0)
      + (if a (wrapCoord n (x + 0)) then 1 else 0) + (if a (wrapCoord n (x + 1)) then 1 else 0) := by
  unfold lineCount
  simp only [List.filter_cons, List.filter_nil]
  generalize a (wrapCoord n (x + -1)) = b1
  generalize a (wrapCoord n (x + 0)) = b2
  generalize a (wrapCoord n (x + 1)) = b3
  cases b1 <;> cases b2 <;> cases b3 <;> rfl

theorem neighbourCount_product (a b : Int → Bool) (w h x y : Int) :
    neighbourCount (fun c r => a c && b r) w h x y
        + (if (a (wrapCoord w (x + 0)) && b (wrapCoord h (y + 0))) then 1 else 0)
      = lineCount a w x * lineCount b h y := by
  unfold neighbourCount lineCount
  rw [neighbourOffsets_eq]
  simp only [List.filter_cons, List.filter_nil]
  generalize a (wrapCoord w (x + -1)) = a1
  generalize a (wrapCoord w (x + 0)) = a2
  generalize a (wrapCoord w (x + 1)) = a3
  generalize b (wrapCoord h (y + -1)) = b1
  generalize b (wrapCoord h (y + 0)) = b2
  generalize b (wrapCoord h (y + 1)) = b3
  cases a1 <;> cases a2 <;> cases a3 <;> cases b1 <;> cases b2 <;> cases b3 <;> rfl

theorem countAlive_eq_neighbourCount (f : Field) (hf : f.WF) (hw : 1 ≤ f.w) (hh : 1 ≤ f.h)
    (p : Int → Int → Bool)
    (hp : ∀ c r, 0 ≤ c → c < f.w → 0 ≤ r → r < f.h → f.Get c r = some (p c r))
    (x y : Int) (hx1 : 0 ≤ x) (hx2 : x < f.w) (hy1 : 0 ≤ y) (hy2 : y < f.h) :
    f.countAlive x y = some ((neighbourCount p f.w f.h x y : Nat) : Int) := by
  have hwf := hf
  obtain ⟨_, _, hwb, hhb, _⟩ := hf
  apply countAlive_eq f x y (fun i j => p (wrapCoord f.w (x + i)) (wrapCoord f.h (y + j)))
  intro d hd
  obtain ⟨a1, a2, a3, a4⟩ := mem_neighbourOffsets_range hd
  rw [wrap64_of_range _ (by omega) (by omega), wrap64_of_range _ (by omega) (by omega)]
  exact Alive_neighbour f hwf hw hh p hp x y hx1 hx2 hy1 hy2 _ _ a1 a2 a3 a4

/-! ## Helper facts on the rule and on wrapped coordinates -/

theorem rule_product_ne_three (A B : Nat) (hA : A ≤ 2) (hB : B ≤ 2) :
    rule (A * B) false = false := by
  interval_cases A <;> interval_cases B <;> rfl

theorem rule_eq_decide (N : Nat) (s : Bool) (P : Prop) [Decidable P]
    (h : (N = 3 ∨ (N = 2 ∧ s = true)) ↔ P) : rule N s = decide P := by
  unfold rule
  rw [Bool.eq_iff_iff]
  simp [← h]

theorem wrapCoord_pred (n x : Int) (h1 : 0 ≤ x) (h2 : x < n) :
    wrapCoord n (x + -1) = if x = 0 then n - 1 else x - 1 := by
  unfold wrapCoord; split_ifs <;> omega

theorem wrapCoord_succ (n x : Int) (h1 : 0 ≤ x) (h2 : x < n) :
    wrapCoord n (x + 1) = if x = n - 1 then 0 else x + 1 := by
  unfold wrapCoord; split_ifs <;> omega

theorem wrapCoord_self (n x : Int) (h1 : 0 ≤ x) (h2 : x < n) : wrapCoord n (x + 0) = x := by
  rw [Int.add_zero]; exact wrapCoord_of_range n x h1 h2

/-! ## The blinker -/

theorem lineCount_one (n x : Int) (hn : 4 ≤ n) (h1 : 0 ≤ x) (h2 : x < n) :
    lineCount (fun t => decide (t = 1)) n x = if x ≤ 2 then 1 else 0 := by
  rw [lineCount_eq, wrapCoord_pred n x h1 h2, wrapCoord_succ n x h1 h2, wrapCoord_self n x h1 h2]
  simp only [decide_eq_true_eq]
  split_ifs <;> omega

theorem lineCount_three (n x : Int) (hn : 4 ≤ n) (h1 : 0 ≤ x) (h2 : x < n) :
    (x = 1 → lineCount (fun t => decide (t = 0 ∨ t = 1 ∨ t = 2)) n x = 3) ∧
    (x = 0 ∨ x = 2 → lineCount (fun t => decide (t = 0 ∨ t = 1 ∨ t = 2)) n x = 2) ∧
    (3 ≤ x → lineCount (fun t => decide (t = 0 ∨ t = 1 ∨ t = 2)) n x ≤ 2) := by
  rw [lineCount_eq, wrapCoord_pred n x h1 h2, wrapCoord_succ n x h1 h2, wrapCoord_self n x h1 h2]
  simp only [decide_eq_true_eq]
  split_ifs <;> omega

theorem blinker_rule (n m x y : Int) (hn : 4 ≤ n) (hm : 4 ≤ m)
    (hx1 : 0 ≤ x) (hx2 : x < n) (hy1 : 0 ≤ y) (hy2 : y < m) (N : Nat)
    (hN : N + (if (decide (x = 1) && decide (y = 0 ∨ y = 1 ∨ y = 2)) then 1 else 0)
      = lineCount (fun t => decide (t = 1)) n x
        * lineCount (fun t => decide (t = 0 ∨ t = 1 ∨ t = 2)) m y) :
    rule N (decide (x = 1) && decide (y = 0 ∨ y = 1 ∨ y = 2))
      = decide ((x = 0 ∨ x = 1 ∨ x = 2) ∧ y = 1) := by
  apply rule_eq_decide
  rw [lineCount_one n x hn hx1 hx2] at hN
  obtain ⟨b1, b2, b3⟩ := lineCount_three m y hm hy1 hy2
  simp only [Bool.and_eq_true, decide_eq_true_eq] at hN ⊢
  generalize lineCount (fun t => decide (t = 0 ∨ t = 1 ∨ t = 2)) m y = B at hN b1 b2 b3
  split_ifs at hN <;> first
    | (rw [Nat.one_mul] at hN; omega)
    | (rw [Nat.zero_mul] at hN; omega)


theorem column4_cells : ∀ c r, 0 ≤ c → c < column4.w → 0 ≤ r → r < column4.h →
    column4.a.Get c r = some (decide (c = 1 ∧ (r = 0 ∨ r = 1 ∨ r = 2))) := by
  intro c r h1 h2 h3 h4
  have h2' : c < 4 := h2
  have h4' : r < 4 := h4
  interval_cases c <;> interval_cases r <;> rfl

/-- C4, as stated for every grid at least 3 x 3, fails when the width or the
height is 3. On the 3 x 3 grid the column `(1,0), (1,1), (1,2)` fills the
whole grid at the first step, so `(0,0)` is alive; on the grid 4 wide and 3
high `(0,0)` is alive after the first step as well; on the grid 3 wide and 4
high `(0,0)` is alive after the second step. -/
theorem blinker_fails_on_width_or_height_three :
    (column3.WF ∧ 3 ≤ column3.w ∧ 3 ≤ column3.h ∧
      (∀ c r : Fin 3, column3.a.Get (c.val : Int) (r.val : Int)
        = some (decide (c.val = 1 ∧ (r.val = 0 ∨ r.val = 1 ∨ r.val = 2)))) ∧
      ∃ l1, column3.Step = some l1 ∧ l1.a.Get 0 0 = some true) ∧
    (column4x3.WF ∧ 3 ≤ column4x3.w ∧ 3 ≤ column4x3.h ∧
      (∀ (c : Fin 4) (r : Fin 3), column4x3.a.Get (c.val : Int) (r.val : Int)
        = some (decide (c.val = 1 ∧ (r.val = 0 ∨ r.val = 1 ∨ r.val = 2)))) ∧
      ∃ l1, column4x3.Step = some l1 ∧ l1.a.Get 0 0 = some true) ∧
    (column3x4.WF ∧ 3 ≤ column3x4.w ∧ 3 ≤ column3x4.h ∧
      (∀ (c : Fin 3) (r : Fin 4), column3x4.a.Get (c.val : Int) (r.val : Int)
        = some (decide (c.val = 1 ∧ (r.val = 0 ∨ r.val = 1 ∨ r.val = 2)))) ∧
      ∃ l1 l2, column3x4.Step = some l1 ∧ l1.Step = some l2 ∧ l2.a.Get 0 0 = some true) :=
  ⟨⟨by decide, by decide, by decide, by decide, _, rfl, rfl⟩,
    ⟨by decide, by decide, by decide, by decide, _, rfl, rfl⟩,
    ⟨by decide, by decide, by decide, by decide, _, _, rfl, rfl, rfl⟩⟩

/-- C4, amended to grids at least 4 x 4: when the live cells of the current
grid are exactly `(1,0), (1,1), (1,2)`, two `Step`s return; after the first
the live cells are exactly `(0,1), (1,1), (2,1)`, and after the second they
are again exactly `(1,0), (1,1), (1,2)`. -/
theorem blinker_period_two (l : Life) (hl : l.WF) (hw : 4 ≤ l.w) (hh : 4 ≤ l.h)
    (hp : ∀ c r, 0 ≤ c → c < l.w → 0 ≤ r → r < l.h →
      l.a.Get c r = some (decide (c = 1 ∧ (r = 0 ∨ r = 1 ∨ r = 2)))) :
    ∃ l1 l2, l.Step = some l1 ∧ l1.Step = some l2 ∧
      (∀ c r, 0 ≤ c → c < l.w → 0 ≤ r → r < l.h →
        l1.a.Get c r = some (decide ((c = 0 ∨ c = 1 ∨ c = 2) ∧ r = 1))) ∧
      (∀ c r, 0 ≤ c → c < l.w → 0 ≤ r → r < l.h →
        l2.a.Get c r = some (decide (c = 1 ∧ (r = 0 ∨ r = 1 ∨ r = 2)))) := by
  have hp' : ∀ c r, 0 ≤ c → c < l.w → 0 ≤ r → r < l.h →
      l.a.Get c r = some ((fun t => decide (t = 1)) c
        && (fun t => decide (t = 0 ∨ t = 1 ∨ t = 2)) r) := by
    intro c r h1 h2 h3 h4
    rw [hp c r h1 h2 h3 h4, Bool.decide_and]
  obtain ⟨l1, hs1, hwf1, hw1, hh1, _, hc1⟩ := Step_spec l hl (by omega) (by omega) _ hp'
  have hq : ∀ c r, 0 ≤ c → c < l.w → 0 ≤ r → r < l.h →
      l1.a.Get c r = some (decide ((c = 0 ∨ c = 1 ∨ c = 2) ∧ r = 1)) := by
    intro c r h1 h2 h3 h4
    rw [(hc1 c r h1 h2 h3 h4).2]
    congr 1
    apply blinker_rule l.w l.h c r hw hh h1 h2 h3 h4
    have := neighbourCount_product (fun t => decide (t = 1))
      (fun t => decide (t = 0 ∨ t = 1 ∨ t = 2)) l.w l.h c r
    rw [wrapCoord_self _ _ h1 h2, wrapCoord_self _ _ h3 h4] at this
    exact this
  have hq' : ∀ c r, 0 ≤ c → c < l1.w → 0 ≤ r → r < l1.h →
      l1.a.Get c r = some ((fun t => decide (t = 0 ∨ t = 1 ∨ t = 2)) c
        && (fun t => decide (t = 1)) r) := by
    intro c r h1 h2 h3 h4
    rw [hq c r h1 (by omega) h3 (by omega), Bool.decide_and]
  obtain ⟨l2, hs2, _, _, _, _, hc2⟩ := Step_spec l1 hwf1 (by omega) (by omega) _ hq'
  refine ⟨l1, l2, hs1, hs2, hq, ?_⟩
  intro c r h1 h2 h3 h4
  rw [(hc2 c r h1 (by omega) h3 (by omega)).2, hw1, hh1]
  congr 1
  have e : (decide (c = 1 ∧ (r = 0 ∨ r = 1 ∨ r = 2)))
      = decide ((r = 0 ∨ r = 1 ∨ r = 2) ∧ c = 1) := by
    rw [Bool.decide_and, Bool.decide_and, Bool.and_comm]
  rw [e]
  have := blinker_rule l.h l.w r c hh hw h3 h4 h1 h2
    (neighbourCount (fun c r => decide (c = 0 ∨ c = 1 ∨ c = 2) && decide (r = 1)) l.w l.h c r)
  simp only [Bool.and_comm (decide (r = 1))] at this
  apply this
  have h := neighbourCount_product (fun t => decide (t = 0 ∨ t = 1 ∨ t = 2))
    (fun t => decide (t = 1)) l.w l.h c r
  rw [wrapCoord_self _ _ h1 h2, wrapCoord_self _ _ h3 h4, Nat.mul_comm] at h
  exact h


/-- C4, instance: the 4 x 4 column. -/
theorem blinker_period_two_witness :
    ∃ l1 l2, column4.Step = some l1 ∧ l1.Step = some l2 ∧
      (∀ c r, 0 ≤ c → c < column4.w → 0 ≤ r → r < column4.h →
        l1.a.Get c r = some (decide ((c = 0 ∨ c = 1 ∨ c = 2) ∧ r = 1))) ∧
      (∀ c r, 0 ≤ c → c < column4.w → 0 ≤ r → r < column4.h →
        l2.a.Get c r = some (decide (c = 1 ∧ (r = 0 ∨ r = 1 ∨ r = 2)))) :=
  blinker_period_two column4 (by decide) (by decide) (by decide) column4_cells

/-! ## The block -/

theorem succ_emod (n x : Int) (h1 : 0 ≤ x) (h2 : x < n) :
    (x + 1) % n = if x = n - 1 then 0 else x + 1 := by
  split_ifs with h
  · subst h
    rw [Int.sub_add_cancel, Int.emod_self]
  · exact Int.emod_eq_of_lt (by omega) (by omega)

theorem lineCount_pair (n x0 c : Int) (hn : 3 ≤ n) (h1 : 0 ≤ x0) (h2 : x0 < n)
    (h3 : 0 ≤ c) (h4 : c < n) :
    lineCount (fun t => decide (t = x0 ∨ t = (x0 + 1) % n)) n c ≤ 2 ∧
    (c = x0 ∨ c = (x0 + 1) % n →
      lineCount (fun t => decide (t = x0 ∨ t = (x0 + 1) % n)) n c = 2) := by
  rw [lineCount_eq, wrapCoord_pred n c h3 h4, wrapCoord_succ n c h3 h4, wrapCoord_self n c h3 h4,
    succ_emod n x0 h1 h2]
  simp only [decide_eq_true_eq]
  split_ifs <;> omega

/-- C6: on a grid at least 3 x 3 whose live cells are exactly the 2 x 2 block
`(x0, y0), ((x0+1) mod w, y0), (x0, (y0+1) mod h), ((x0+1) mod w, (y0+1) mod h)`,
each block cell has exactly 3 live neighbours (as `Next` counts them), and
`Step` returns with a current grid equal to the one before the step. -/
theorem block_is_still (l : Life) (hl : l.WF) (hw : 3 ≤ l.w) (hh : 3 ≤ l.h)
    (x0 y0 : Int) (hx1 : 0 ≤ x0) (hx2 : x0 < l.w) (hy1 : 0 ≤ y0) (hy2 : y0 < l.h)
    (hp : ∀ c r, 0 ≤ c → c < l.w → 0 ≤ r → r < l.h →
      l.a.Get c r = some (decide ((c = x0 ∨ c = (x0 + 1) % l.w) ∧ (r = y0 ∨ r = (y0 + 1) % l.h)))) :
    (∀ c r, 0 ≤ c → c < l.w → 0 ≤ r → r < l.h →
      (c = x0 ∨ c = (x0 + 1) % l.w) → (r = y0 ∨ r = (y0 + 1) % l.h) →
        l.a.countAlive c r = some 3 ∧ l.a.liveNeighbours c r = 3) ∧
    ∃ l', l.Step = some l' ∧ l'.a = l.a ∧
      ∀ c r, 0 ≤ c → c < l.w → 0 ≤ r → r < l.h → l'.a.Get c r = l.a.Get c r := by
  have hp' : ∀ c r, 0 ≤ c → c < l.w → 0 ≤ r → r < l.h →
      l.a.Get c r = some ((fun t => decide (t = x0 ∨ t = (x0 + 1) % l.w)) c
        && (fun t => decide (t = y0 ∨ t = (y0 + 1) % l.h)) r) := by
    intro c r h1 h2 h3 h4
    rw [hp c r h1 h2 h3 h4, Bool.decide_and]
  have hpa : ∀ c r, 0 ≤ c → c < l.a.w → 0 ≤ r → r < l.a.h →
      l.a.Get c r = some ((fun t => decide (t = x0 ∨ t = (x0 + 1) % l.w)) c
        && (fun t => decide (t = y0 ∨ t = (y0 + 1) % l.h)) r) := by
    rw [hl.2.2.1, hl.2.2.2.1]; exact hp'
  have hprod : ∀ c r, 0 ≤ c → c < l.w → 0 ≤ r → r < l.h →
      neighbourCount (fun c r => decide (c = x0 ∨ c = (x0 + 1) % l.w)
          && decide (r = y0 ∨ r = (y0 + 1) % l.h)) l.w l.h c r
        + (if (decide (c = x0 ∨ c = (x0 + 1) % l.w) && decide (r = y0 ∨ r = (y0 + 1) % l.h))
            then 1 else 0)
        = lineCount (fun t => decide (t = x0 ∨ t = (x0 + 1) % l.w)) l.w c
          * lineCount (fun t => decide (t = y0 ∨ t = (y0 + 1) % l.h)) l.h r := by
    intro c r h1 h2 h3 h4
    have := neighbourCount_product (fun t => decide (t = x0 ∨ t = (x0 + 1) % l.w))
      (fun t => decide (t = y0 ∨ t = (y0 + 1) % l.h)) l.w l.h c r
    rw [wrapCoord_self _ _ h1 h2, wrapCoord_self _ _ h3 h4] at this
    exact this
  have hthree : ∀ c r, 0 ≤ c → c < l.w → 0 ≤ r → r < l.h →
      (c = x0 ∨ c = (x0 + 1) % l.w) → (r = y0 ∨ r = (y0 + 1) % l.h) →
      neighbourCount (fun c r => decide (c = x0 ∨ c = (x0 + 1) % l.w)
          && decide (r = y0 ∨ r = (y0 + 1) % l.h)) l.w l.h c r = 3 := by
    intro c r h1 h2 h3 h4 hc hr
    have h := hprod c r h1 h2 h3 h4
    rw [(lineCount_pair l.w x0 c hw hx1 hx2 h1 h2).2 hc,
      (lineCount_pair l.h y0 r hh hy1 hy2 h3 h4).2 hr, decide_eq_true hc, decide_eq_true hr] at h
    simp only [Bool.and_self, if_true] at h
    omega
  constructor
  · intro c r h1 h2 h3 h4 hc hr
    have e1 := countAlive_eq_neighbourCount l.a hl.1 (by rw [hl.2.2.1]; omega)
      (by rw [hl.2.2.2.1]; omega) _ hpa c r h1 (by rw [hl.2.2.1]; exact h2) h3
      (by rw [hl.2.2.2.1]; exact h4)
    have e2 := liveNeighbours_eq l.a hl.1 (by rw [hl.2.2.1]; omega)
      (by rw [hl.2.2.2.1]; omega) _ hpa c r h1 (by rw [hl.2.2.1]; exact h2) h3
      (by rw [hl.2.2.2.1]; exact h4)
    rw [hl.2.2.1, hl.2.2.2.1] at e1 e2
    have h3' := hthree c r h1 h2 h3 h4 hc hr
    simp only at e1 e2
    rw [h3'] at e1 e2
    exact ⟨e1, e2⟩
  · obtain ⟨l', hs, hwf, hw', hh', _, hc⟩ := Step_spec l hl (by omega) (by omega) _ hp'
    have hsame : ∀ c r, 0 ≤ c → c < l.w → 0 ≤ r → r < l.h → l'.a.Get c r = l.a.Get c r := by
      intro c r h1 h2 h3 h4
      rw [(hc c r h1 h2 h3 h4).2, hp' c r h1 h2 h3 h4]
      congr 1
      simp only
      by_cases hblock : (c = x0 ∨ c = (x0 + 1) % l.w) ∧ (r = y0 ∨ r = (y0 + 1) % l.h)
      · rw [hthree c r h1 h2 h3 h4 hblock.1 hblock.2, decide_eq_true hblock.1,
          decide_eq_true hblock.2]
        rfl
      · have hd : (decide (c = x0 ∨ c = (x0 + 1) % l.w)
            && decide (r = y0 ∨ r = (y0 + 1) % l.h)) = false := by
          rw [← Bool.decide_and]; exact decide_eq_false hblock
        have h := hprod c r h1 h2 h3 h4
        rw [hd] at h ⊢
        simp only [Bool.false_eq_true, if_false, Nat.add_zero] at h
        rw [h]
        exact rule_product_ne_three _ _ (lineCount_pair l.w x0 c hw hx1 hx2 h1 h2).1
          (lineCount_pair l.h y0 r hh hy1 hy2 h3 h4).1
    refine ⟨l', hs, ?_, hsame⟩
    apply Field.ext_of_Get _ _ hwf.1 hl.1 (by rw [hwf.2.2.1, hl.2.2.1, hw'])
      (by rw [hwf.2.2.2.1, hl.2.2.2.1, hh'])
    intro c r h1 h2 h3 h4
    exact hsame c r h1 (by rw [hwf.2.2.1, hw'] at h2; exact h2) h3
      (by rw [hwf.2.2.2.1, hh'] at h4; exact h4)

theorem block4_cells : ∀ c r, 0 ≤ c → c < block4.w → 0 ≤ r → r < block4.h →
    block4.a.Get c r
      = some (decide ((c = 3 ∨ c = (3 + 1) % block4.w) ∧ (r = 3 ∨ r = (3 + 1) % block4.h))) := by
  intro c r h1 h2 h3 h4
  have h2' : c < 4 := h2
  have h4' : r < 4 := h4
  interval_cases c <;> interval_cases r <;> rfl

/-- C6, instance: the block at `(3, 3)` of the 4 x 4 grid, wrapping around both
edges. -/
theorem block_is_still_witness :
    (∀ c r, 0 ≤ c → c < block4.w → 0 ≤ r → r < block4.h →
      (c = 3 ∨ c = (3 + 1) % block4.w) → (r = 3 ∨ r = (3 + 1) % block4.h) →
        block4.a.countAlive c r = some 3 ∧ block4.a.liveNeighbours c r = 3) ∧
    ∃ l', block4.Step = some l' ∧ l'.a = block4.a ∧
      ∀ c r, 0 ≤ c → c < block4.w → 0 ≤ r → r < block4.h →
        l'.a.Get c r = block4.a.Get c r :=
  block_is_still block4 (by decide) (by decide) (by decide) 3 3
    (by decide) (by decide) (by decide) (by decide) block4_cells
/-! ## A lone cell -/

theorem lineCount_single_le (n x c : Int) (hn : 2 ≤ n) (hx1 : 0 ≤ x) (hx2 : x < n) :
    lineCount (fun t => decide (t = c)) n x ≤ 2 := by
  rw [lineCount_eq]
  simp only [wrapCoord, decide_eq_true_eq]
  split_ifs <;> omega

theorem lineCount_single_self (n c : Int) (hn : 1 ≤ n) (hc1 : 0 ≤ c) (hc2 : c < n) :
    1 ≤ lineCount (fun t => decide (t = c)) n c ∧
    (lineCount (fun t => decide (t = c)) n c = 1 → 2 ≤ n) := by
  rw [lineCount_eq]
  simp only [wrapCoord, decide_eq_true_eq]
  split_ifs <;> omega

/-- C7: when the current grid has exactly one live cell, at `(x0, y0)`, and the
neighbour count that `Next` computes for that cell is 0, `Step` returns and
every cell of the new current grid, `(x0, y0)` included, is dead. -/
theorem lone_cell_dies (l : Life) (hl : l.WF) (hw : 1 ≤ l.w) (hh : 1 ≤ l.h)
    (x0 y0 : Int) (hx1 : 0 ≤ x0) (hx2 : x0 < l.w) (hy1 : 0 ≤ y0) (hy2 : y0 < l.h)
    (hp : ∀ c r, 0 ≤ c → c < l.w → 0 ≤ r → r < l.h →
      l.a.Get c r = some (decide (c = x0 ∧ r = y0)))
    (h0 : l.a.countAlive x0 y0 = some 0) :
    ∃ l', l.Step = some l' ∧
      ∀ c r, 0 ≤ c → c < l.w → 0 ≤ r → r < l.h → l'.a.Get c r = some false := by
  have hp' : ∀ c r, 0 ≤ c → c < l.w → 0 ≤ r → r < l.h →
      l.a.Get c r = some ((fun t => decide (t = x0)) c && (fun t => decide (t = y0)) r) := by
    intro c r h1 h2 h3 h4
    rw [hp c r h1 h2 h3 h4, Bool.decide_and]
  obtain ⟨l', hs, _, _, _, _, hc⟩ := Step_spec l hl hw hh _ hp'
  refine ⟨l', hs, ?_⟩
  have hcnt := countAlive_eq_neighbourCount l.a hl.1 (by rw [hl.2.2.1]; exact hw)
    (by rw [hl.2.2.2.1]; exact hh) _ (by rw [hl.2.2.1, hl.2.2.2.1]; exact hp') x0 y0 hx1
    (by rw [hl.2.2.1]; exact hx2) hy1 (by rw [hl.2.2.2.1]; exact hy2)
  rw [hl.2.2.1, hl.2.2.2.1, h0] at hcnt
  have hn0 : neighbourCount (fun c r => decide (c = x0) && decide (r = y0)) l.w l.h x0 y0 = 0 := by
    exact_mod_cast (Option.some.inj hcnt).symm
  have hprod0 := neighbourCount_product (fun t => decide (t = x0)) (fun t => decide (t = y0))
    l.w l.h x0 y0
  rw [hn0] at hprod0
  simp only [Int.add_zero, wrapCoord_of_range _ _ hx1 hx2, wrapCoord_of_range _ _ hy1 hy2,
    decide_True, Bool.and_self, if_true, Nat.zero_add] at hprod0
  obtain ⟨hA1, hA2⟩ := lineCount_single_self l.w x0 hw hx1 hx2
  obtain ⟨hB1, hB2⟩ := lineCount_single_self l.h y0 hh hy1 hy2
  have hw2 : 2 ≤ l.w := hA2 (Nat.eq_one_of_mul_eq_one_right hprod0.symm)
  have hh2 : 2 ≤ l.h := hB2 (Nat.eq_one_of_mul_eq_one_left hprod0.symm)
  intro c r hc1 hc2 hr1 hr2
  rw [(hc c r hc1 hc2 hr1 hr2).2]
  congr 1
  by_cases hself : c = x0 ∧ r = y0
  · obtain ⟨e1, e2⟩ := hself
    subst e1; subst e2
    rw [hn0]
    rfl
  · have hprod := neighbourCount_product (fun t => decide (t = x0)) (fun t => decide (t = y0))
      l.w l.h c r
    have hd : (decide (c = x0) && decide (r = y0)) = false := by
      rw [← Bool.decide_and]; exact decide_eq_false hself
    simp only [Int.add_zero, wrapCoord_of_range _ _ hc1 hc2, wrapCoord_of_range _ _ hr1 hr2,
      hd, Bool.false_eq_true, if_false, Nat.add_zero] at hprod
    simp only [hd]
    rw [hprod]
    exact rule_product_ne_three _ _ (lineCount_single_le _ _ _ hw2 hc1 hc2)
      (lineCount_single_le _ _ _ hh2 hr1 hr2)

theorem lone4_cells : ∀ c r, 0 ≤ c → c < lone4.w → 0 ≤ r → r < lone4.h →
    lone4.a.Get c r = some (decide (c = 2 ∧ r = 1)) := by
  intro c r h1 h2 h3 h4
  have h2' : c < 4 := h2
  have h4' : r < 4 := h4
  interval_cases c <;> interval_cases r <;> rfl

/-- C7, instance: the lone cell `(2, 1)` of a 4 x 4 grid. -/
theorem lone_cell_dies_witness :
    ∃ l', lone4.Step = some l' ∧
      ∀ c r, 0 ≤ c → c < lone4.w → 0 ≤ r → r < lone4.h → l'.a.Get c r = some false :=
  lone_cell_dies lone4 (by decide) (by decide) (by decide) 2 1
    (by decide) (by decide) (by decide) (by decide) lone4_cells (by decide)

/-! ## `Toggle` -/

theorem Set_spec (f : Field) (hf : f.WF) (x y : Int) (hx1 : 0 ≤ x) (hx2 : x < f.w)
    (hy1 : 0 ≤ y) (hy2 : y < f.h) (v : Bool) :
    ∃ f', f.Set x y v = some f' ∧ f'.WF ∧ f'.w = f.w ∧ f'.h = f.h ∧
      f'.Get x y = some v ∧
      ∀ c r, 0 ≤ c → 0 ≤ r → ¬ (c = x ∧ r = y) → f'.Get c r = f.Get c r := by
  obtain ⟨h0, h1, h2, h3, hs⟩ := hf
  have hX : x.toNat < f.w.toNat := by omega
  have hY : y.toNat < f.h.toNat := by omega
  have e := Set_natCast f hs hX hY v
  rw [Int.toNat_of_nonneg hx1, Int.toNat_of_nonneg hy1] at e
  refine ⟨_, e, ⟨h0, h1, h2, h3, shape_setCell hs _ _ _⟩, rfl, rfl, ?_, ?_⟩
  · rw [Get_eq_cell _ _ _ hx1 hy1]
    simp only
    rw [cell_setCell hs hX hY, if_pos ⟨rfl, rfl⟩]
  · intro c r hc hr hne
    rw [Get_eq_cell _ _ _ hc hr, Get_eq_cell _ _ _ hc hr]
    simp only
    rw [cell_setCell hs hX hY, if_neg]
    intro h
    apply hne
    omega

/-- C8: for an in-bounds `(x, y)`, `Toggle(x, y)` returns; it negates the
value of the current grid at `(x, y)` and leaves unchanged every other
in-bounds cell of the current grid, the whole staging grid and the
dimensions. -/
theorem Toggle_flips_one_cell (l : Life) (hl : l.WF) (x y : Int)
    (hx1 : 0 ≤ x) (hx2 : x < l.w) (hy1 : 0 ≤ y) (hy2 : y < l.h) :
    ∃ l' v, l.a.Get x y = some v ∧ l.Toggle x y = some l' ∧
      l'.a.Get x y = some (!v) ∧
      (∀ c r, 0 ≤ c → c < l.w → 0 ≤ r → r < l.h → ¬ (c = x ∧ r = y) →
        l'.a.Get c r = l.a.Get c r) ∧
      l'.b = l.b ∧ l'.w = l.w ∧ l'.h = l.h ∧ l'.a.w = l.a.w ∧ l'.a.h = l.a.h := by
  obtain ⟨ha, hb, haw, hah, hbw, hbh⟩ := hl
  obtain ⟨v, hv⟩ := Get_isSome l.a ha x y hx1 (by omega) hy1 (by omega)
  obtain ⟨f', e, _, ew, eh, eg, eo⟩ := Set_spec l.a ha x y hx1 (by omega) hy1 (by omega) (!v)
  refine ⟨{ l with a := f' }, v, hv, ?_, eg, fun c r h1 _ h3 _ hne => eo c r h1 h3 hne,
    rfl, rfl, rfl, ew, eh⟩
  unfold Life.Toggle
  rw [hv]
  cases v
  · simp only [Bool.not_false] at e
    simp [e]
  · simp only [Bool.not_true] at e
    simp [e]

/-- C8, instance: toggling the live cell `(1, 1)` of the 4 x 4 column. -/
theorem Toggle_flips_one_cell_witness :
    ∃ l' v, column4.a.Get 1 1 = some v ∧ column4.Toggle 1 1 = some l' ∧
      l'.a.Get 1 1 = some (!v) ∧
      (∀ c r, 0 ≤ c → c < column4.w → 0 ≤ r → r < column4.h → ¬ (c = 1 ∧ r = 1) →
        l'.a.Get c r = column4.a.Get c r) ∧
      l'.b = column4.b ∧ l'.w = column4.w ∧ l'.h = column4.h ∧
      l'.a.w = column4.a.w ∧ l'.a.h = column4.a.h :=
  Toggle_flips_one_cell column4 (by decide) 1 1 (by decide) (by decide) (by decide) (by decide)

/-! ## `Clear` and `String` -/

theorem Clear_spec (l : Life) (hl : l.WF) :
    ∃ l', l.Clear = some l' ∧ l'.WF ∧ l'.w = l.w ∧ l'.h = l.h ∧ l'.b = l.b ∧
      ∀ c r, 0 ≤ c → c < l.w → 0 ≤ r → r < l.h → l'.a.Get c r = some false := by
  obtain ⟨ha, hb, haw, hah, hbw, hbh⟩ := hl
  have has : Shape l.a.s l.w.toNat l.h.toNat := by
    have := ha.2.2.2.2
    rwa [haw, hah] at this
  obtain ⟨f', h1, hw1, hh1, hs1, hc1⟩ :=
    fill_spec (fun _ _ => some false) (fun _ _ => false) l.h.toNat (le_refl _)
      (fun _ _ _ _ => rfl) l.a has
  have hf' : f'.WF := by
    refine ⟨?_, ?_, ?_, ?_, ?_⟩
    · rw [hw1]; exact ha.1
    · rw [hh1]; exact ha.2.1
    · rw [hw1]; exact ha.2.2.1
    · rw [hh1]; exact ha.2.2.2.1
    · rw [hw1, hh1, haw, hah]; exact hs1
  refine ⟨{ l with a := f' }, ?_, ⟨hf', hb, hw1.trans haw, hh1.trans hah, hbw, hbh⟩,
    rfl, rfl, rfl, ?_⟩
  · unfold Life.Clear
    simp only [Option.bind_eq_bind, Option.some_bind] at h1 ⊢
    rw [h1]
    rfl
  · intro c r g1 g2 g3 g4
    simp only
    rw [Get_eq_cell _ _ _ g1 g3, hc1, if_pos (by omega)]

theorem String_row (l : Life) (y : Nat)
    (hd : ∀ x : Nat, x < l.w.toNat → l.a.Alive (x : Int) (y : Int) = some false) :
    ∀ n : Nat, n ≤ l.w.toNat → ∀ buf : List Char, '*' ∉ buf →
      ∃ buf', (List.range n).foldlM
          (fun (buf : List Char) (x : Nat) =>
            (l.a.Alive (x : Int) (y : Int)).bind
              (fun v => some (buf ++ [if v then '*' else ' ']))) buf = some buf' ∧
        '*' ∉ buf' := by
  intro n
  induction n with
  | zero => intro _ buf hb; exact ⟨buf, rfl, hb⟩
  | succ n ih =>
    intro hn buf hb
    obtain ⟨b1, e1, hb1⟩ := ih (by omega) buf hb
    refine ⟨b1 ++ [' '], ?_, ?_⟩
    · rw [List.range_succ, List.foldlM_append, e1]
      simp [hd n (by omega)]
    · simp [hb1]

theorem String_rows (l : Life)
    (hd : ∀ x y : Nat, x < l.w.toNat → y < l.h.toNat →
      l.a.Alive (x : Int) (y : Int) = some false) :
    ∀ m : Nat, m ≤ l.h.toNat → ∀ buf : List Char, '*' ∉ buf →
      ∃ buf', (List.range m).foldlM
          (fun (buf : List Char) (y : Nat) =>
            ((List.range l.w.toNat).foldlM
              (fun (buf : List Char) (x : Nat) =>
                (l.a.Alive (x : Int) (y : Int)).bind
                  (fun v => some (buf ++ [if v then '*' else ' ']))) buf).bind
              (fun buf => some (buf ++ ['\n']))) buf = some buf' ∧
        '*' ∉ buf' := by
  intro m
  induction m with
  | zero => intro _ buf hb; exact ⟨buf, rfl, hb⟩
  | succ m ih =>
    intro hm buf hb
    obtain ⟨b1, e1, hb1⟩ := ih (by omega) buf hb
    obtain ⟨b2, e2, hb2⟩ := String_row l m (fun x hx => hd x m hx (by omega)) l.w.toNat
      (le_refl _) b1 hb1
    refine ⟨b2 ++ ['\n'], ?_, ?_⟩
    · rw [List.range_succ, List.foldlM_append, e1]
      simp only [Option.bind_eq_bind, Option.some_bind, List.foldlM_cons, List.foldlM_nil]
      rw [e2]
      rfl
    · simp [hb2]

/-- C9: whatever the state, `Clear` returns and every in-bounds cell of the
current grid is then dead; a second `Clear` returns the same state; and
`String` on the cleared state returns a text without `'*'`. -/
theorem Clear_kills_every_cell (l : Life) (hl : l.WF) :
    ∃ l', l.Clear = some l' ∧
      (∀ c r, 0 ≤ c → c < l.w → 0 ≤ r → r < l.h →
        l'.a.Get c r = some false ∧ l'.Alive c r = some false) ∧
      l'.Clear = some l' ∧
      ∃ str, l'.String = some str ∧ '*' ∉ str.toList := by
  obtain ⟨l', e, hwf, hw, hh, _, hc⟩ := Clear_spec l hl
  have hA : ∀ c r, 0 ≤ c → c < l.w → 0 ≤ r → r < l.h → l'.Alive c r = some false := by
    intro c r h1 h2 h3 h4
    unfold Life.Alive
    rw [Alive_inBounds l'.a hwf.1 c r h1 (by rw [hwf.2.2.1, hw]; exact h2) h3
      (by rw [hwf.2.2.2.1, hh]; exact h4)]
    exact hc c r h1 h2 h3 h4
  refine ⟨l', e, fun c r h1 h2 h3 h4 => ⟨hc c r h1 h2 h3 h4, hA c r h1 h2 h3 h4⟩, ?_, ?_⟩
  · obtain ⟨l2, e2, hwf2, hw2, hh2, hb2, hc2⟩ := Clear_spec l' hwf
    rw [e2]
    have ea : l2.a = l'.a := by
      apply Field.ext_of_Get _ _ hwf2.1 hwf.1
        (by rw [hwf2.2.2.1, hwf.2.2.1, hw2]) (by rw [hwf2.2.2.2.1, hwf.2.2.2.1, hh2])
      intro c r g1 g2 g3 g4
      rw [hwf2.2.2.1, hw2] at g2
      rw [hwf2.2.2.2.1, hh2] at g4
      rw [hc2 c r g1 g2 g3 g4, hc c r g1 (by omega) g3 (by omega)]
    obtain ⟨a2, b2, w2, h2⟩ := l2
    obtain ⟨a1, b1, w1, h1⟩ := l'
    simp only at hw2 hh2 hb2 ea
    rw [hw2, hh2, hb2, ea]
  · obtain ⟨buf, e3, hb⟩ := String_rows l'
      (fun x y hx hy => hA x y (by omega) (by omega) (by omega) (by omega)) l'.h.toNat
      (le_refl _) [] (by simp)
    refine ⟨String.mk buf, ?_, hb⟩
    unfold Life.String
    simp only [Option.bind_eq_bind] at e3 ⊢
    rw [e3]
    rfl

/-- C9, instance: clearing the 4 x 4 column. -/
theorem Clear_kills_every_cell_witness :
    ∃ l', column4.Clear = some l' ∧
      (∀ c r, 0 ≤ c → c < column4.w → 0 ≤ r → r < column4.h →
        l'.a.Get c r = some false ∧ l'.Alive c r = some false) ∧
      l'.Clear = some l' ∧
      ∃ str, l'.String = some str ∧ '*' ∉ str.toList :=
  Clear_kills_every_cell column4 (by decide)

/-! ## The key mapping -/

/-- C10, as stated for every key id up to 127, fails at key 64: the code
computes `y = |64 / 8 - 7| = 1`, not `7 - 64 / 8 = -1`. -/
theorem keyToXY_64_counterexample :
    (0 : Int) ≤ 64 ∧ (64 : Int) ≤ 127 ∧ keyToXY 64 = (0, 1) ∧
      (keyToXY 64).2 ≠ 7 - 64 / 8 := by
  decide

/-- C10, amended: for every key id `0 ≤ k ≤ 127` the computed coordinate is
`x = k mod 8`, `y = |k div 8 - 7|`; this `y` is `7 - k div 8` for the grid keys
`k ≤ 63`, and `k div 8 - 7` for `64 ≤ k`. -/
theorem keyToXY_grid_keys (k : Int) (h1 : 0 ≤ k) (h2 : k ≤ 127) :
    (keyToXY k).1 = k % 8 ∧ (keyToXY k).2 = |k / 8 - 7| ∧
      (k ≤ 63 → (keyToXY k).2 = 7 - k / 8) ∧ (64 ≤ k → (keyToXY k).2 = k / 8 - 7) := by
  unfold keyToXY
  simp only [Int.tmod_eq_emod h1 (by norm_num : (0:Int) ≤ 8),
    Int.tdiv_eq_ediv h1 (by norm_num : (0:Int) ≤ 8), Int.natCast_natAbs]
  refine ⟨trivial, trivial, ?_, ?_⟩
  · intro h; rw [abs_of_nonpos (by omega)]; omega
  · intro h; rw [abs_of_nonneg (by omega)]


/-- C10, instance: key 10 is the cell `(2, 6)`. -/
theorem keyToXY_grid_keys_witness :
    (keyToXY 10).1 = 10 % 8 ∧ (keyToXY 10).2 = |(10 : Int) / 8 - 7| ∧
      ((10 : Int) ≤ 63 → (keyToXY 10).2 = 7 - 10 / 8) ∧
      ((64 : Int) ≤ 10 → (keyToXY 10).2 = 10 / 8 - 7) :=
  keyToXY_grid_keys 10 (by decide) (by decide)

/-! ## The key mappings and the stop flag -/

/-! ## The two key mappings -/

theorem buttonIdFromXY_eq (x y : Int) (hx1 : 0 ≤ x) (hx2 : x < 8) (hy1 : 0 ≤ y) (hy2 : y < 8) :
    buttonIdFromXY x y = (7 - y) * 8 + x := by
  unfold buttonIdFromXY
  rw [wrap64_of_range (y * 8) (by omega) (by omega),
    wrap64_of_range (56 - y * 8) (by omega) (by omega),
    wrap64_of_range (56 - y * 8 + x) (by omega) (by omega)]
  omega

theorem keyToXY_eq (k : Int) (hk : 0 ≤ k) :
    keyToXY k = (k % 8, |k / 8 - 7|) := by
  unfold keyToXY
  rw [Int.tmod_eq_emod hk (by norm_num), Int.tdiv_eq_ediv hk (by norm_num), Int.natCast_natAbs]

/-- C12: on the 8 x 8 grid `buttonIdFromXY(x, y)` is `(7 - y)*8 + x`, lies in
`0..63`, and the key mapping of the input consumer sends it back to `(x, y)`;
and for a key id `k` in `0..63`, `buttonIdFromXY` of the key mapping of `k` is
`k`. -/
theorem key_mappings_inverse (x y k : Int) (hx1 : 0 ≤ x) (hx2 : x < 8) (hy1 : 0 ≤ y)
    (hy2 : y < 8) (hk1 : 0 ≤ k) (hk2 : k ≤ 63) :
    (buttonIdFromXY x y = (7 - y) * 8 + x ∧ 0 ≤ buttonIdFromXY x y ∧ buttonIdFromXY x y ≤ 63 ∧
      keyToXY (buttonIdFromXY x y) = (x, y)) ∧
    buttonIdFromXY (keyToXY k).1 (keyToXY k).2 = k := by
  have e := buttonIdFromXY_eq x y hx1 hx2 hy1 hy2
  refine ⟨⟨e, by omega, by omega, ?_⟩, ?_⟩
  · rw [keyToXY_eq _ (by omega), e]
    have h1 : ((7 - y) * 8 + x) % 8 = x := by omega
    have h2 : ((7 - y) * 8 + x) / 8 - 7 = -y := by omega
    rw [h1, h2, abs_neg, abs_of_nonneg hy1]
  · rw [keyToXY_eq k hk1]
    simp only
    have h3 : |k / 8 - 7| = 7 - k / 8 := by
      rw [abs_of_nonpos (by omega)]; omega
    rw [h3, buttonIdFromXY_eq _ _ (by omega) (by omega) (by omega) (by omega)]
    omega

/-- C12, instance: the cell `(2, 6)` and the key 10. -/
theorem key_mappings_inverse_witness :
    (buttonIdFromXY 2 6 = (7 - 6) * 8 + 2 ∧ 0 ≤ buttonIdFromXY 2 6 ∧ buttonIdFromXY 2 6 ≤ 63 ∧
      keyToXY (buttonIdFromXY 2 6) = (2, 6)) ∧
    buttonIdFromXY (keyToXY 10).1 (keyToXY 10).2 = 10 :=
  key_mappings_inverse 2 6 10 (by decide) (by decide) (by decide) (by decide) (by decide)
    (by decide)

/-! ## The stop flag -/

theorem flagAfter_false (events : List Event) : events.foldl flagAfter false = false := by
  induction events with
  | nil => rfl
  | cons e es ih => simpa [List.foldl, flagAfter] using ih

theorem flagAfter_true_iff (events : List Event) :
    events.foldl flagAfter true = false ↔
      ∃ e ∈ events, e.Status = 128 ∧ e.Data1 = 82 ∧ e.Data2 = 127 := by
  induction events with
  | nil => simp
  | cons e es ih =>
    rw [List.foldl_cons]
    by_cases hs : e.Status = 128 ∧ e.Data1 = 82 ∧ e.Data2 = 127
    · have h1 : flagAfter true e = false := by
        obtain ⟨a, b, c⟩ := hs
        simp [flagAfter, a, b, c]
      rw [h1, flagAfter_false]
      simp only [List.mem_cons, true_iff]
      exact ⟨e, Or.inl rfl, hs⟩
    · have h1 : flagAfter true e = true := by
        simp only [flagAfter, if_true, decide_eq_true_eq]
        by_contra hn
        apply hs
        push_neg at hn
        exact hn
      rw [h1, ih]
      constructor
      · rintro ⟨e', he', h'⟩
        exact ⟨e', List.mem_cons_of_mem _ he', h'⟩
      · rintro ⟨e', he', h'⟩
        rcases List.mem_cons.mp he' with rfl | h2
        · exact absurd h' hs
        · exact ⟨e', h2, h'⟩

theorem handleEvent_flag (c c' : Consumer) (e : Event) (h : handleEvent c e = some c') :
    c'.keep_running = flagAfter c.keep_running e := by
  unfold handleEvent at h
  simp only at h
  split_ifs at h with h1 h2
  · cases hc : c.life.Clear with
    | none => simp [hc] at h
    | some l1 =>
      simp only [hc, Option.bind_eq_bind, Option.some_bind] at h
      cases ho : LifeToMidi l1 c.out with
      | none => simp [ho] at h
      | some o => simp only [ho, Option.some_bind, Option.some.injEq] at h; rw [← h]
  · cases ht : c.life.Toggle (keyToXY e.Data1).1 (keyToXY e.Data1).2 with
    | none => simp [ht] at h
    | some l1 =>
      simp only [ht, Option.bind_eq_bind, Option.some_bind, Option.some.injEq] at h; rw [← h]
  · simp only [Option.some.injEq] at h; rw [← h]

theorem handleEvents_flag (events : List Event) :
    ∀ c c' : Consumer, events.foldlM handleEvent c = some c' →
      c'.keep_running = events.foldl flagAfter c.keep_running := by
  induction events with
  | nil => intro c c' h; simp only [List.foldlM_nil, Option.pure_def, Option.some.injEq] at h; rw [← h]; rfl
  | cons e es ih =>
    intro c c' h
    rw [List.foldlM_cons] at h
    cases h1 : handleEvent c e with
    | none => simp [h1] at h
    | some c1 =>
      simp only [h1, Option.bind_eq_bind, Option.some_bind] at h
      rw [ih c1 c' h, handleEvent_flag c c1 e h1]
      rfl


/-- C13: the stop flag only goes from running to stopped. After the consumer has
handled a sequence of events the flag is the fold of the per-event update;
started running, it is stopped exactly when one of the events had
`Status = 128`, `Data1 = 82`, `Data2 = 127`; started stopped, it stays stopped
whatever the events are. -/
theorem stop_flag_one_way (c c' : Consumer) (events : List Event)
    (h : events.foldlM handleEvent c = some c') :
    c'.keep_running = events.foldl flagAfter c.keep_running ∧
    (c.keep_running = true →
      (c'.keep_running = false ↔
        ∃ e ∈ events, e.Status = 128 ∧ e.Data1 = 82 ∧ e.Data2 = 127)) ∧
    (c.keep_running = false → c'.keep_running = false) ∧
    (∀ evs : List Event,
      (evs.foldl flagAfter true = false ↔
        ∃ e ∈ evs, e.Status = 128 ∧ e.Data1 = 82 ∧ e.Data2 = 127) ∧
      evs.foldl flagAfter false = false) := by
  have hk := handleEvents_flag events c c' h
  refine ⟨hk, ?_, ?_, fun evs => ⟨flagAfter_true_iff evs, flagAfter_false evs⟩⟩
  · intro hr
    rw [hk, hr]
    exact flagAfter_true_iff events
  · intro hr
    rw [hk, hr]
    exact flagAfter_false events

/-- C13, instance: the stop signature followed by a release of the same key with
another velocity. -/
theorem stop_flag_one_way_witness :
    ({ keep_running := false, life := dead8, out := [] } : Consumer).keep_running
        = [({ Timestamp := 0, Status := 128, Data1 := 82, Data2 := 127 } : Event),
            { Timestamp := 1, Status := 128, Data1 := 82, Data2 := 0 }].foldl flagAfter
          consumer8.keep_running ∧
    (consumer8.keep_running = true →
      (({ keep_running := false, life := dead8, out := [] } : Consumer).keep_running = false ↔
        ∃ e ∈ [({ Timestamp := 0, Status := 128, Data1 := 82, Data2 := 127 } : Event),
            { Timestamp := 1, Status := 128, Data1 := 82, Data2 := 0 }],
          e.Status = 128 ∧ e.Data1 = 82 ∧ e.Data2 = 127)) ∧
    (consumer8.keep_running = false →
      ({ keep_running := false, life := dead8, out := [] } : Consumer).keep_running = false) ∧
    (∀ evs : List Event,
      (evs.foldl flagAfter true = false ↔
        ∃ e ∈ evs, e.Status = 128 ∧ e.Data1 = 82 ∧ e.Data2 = 127) ∧
      evs.foldl flagAfter false = false) :=
  stop_flag_one_way consumer8 { keep_running := false, life := dead8, out := [] }
    [{ Timestamp := 0, Status := 128, Data1 := 82, Data2 := 127 },
      { Timestamp := 1, Status := 128, Data1 := 82, Data2 := 0 }] rfl

/-! ## `LifeToMidi` -/

/-- The messages of one row. -/
theorem LifeToMidi_row (l : Life) (p : Int → Int → Bool) (y : Nat)
    (hp : ∀ x : Nat, x < l.w.toNat → l.Alive (x : Int) (y : Int) = some (p x y)) :
    ∀ n : Nat, n ≤ l.w.toNat → ∀ out : List (Int × Int × Int),
      (List.range n).foldlM
        (fun (out : List (Int × Int × Int)) (x : Nat) =>
          (l.Alive (x : Int) (y : Int)).bind (fun v =>
            if v then some (out ++ [(0x90, buttonIdFromXY (x : Int) (y : Int), 1)])
            else some (out ++ [(0x90, buttonIdFromXY (x : Int) (y : Int), 0)]))) out
      = some (out ++ (List.range n).map
          (fun (x : Nat) => ((0x90 : Int), buttonIdFromXY (x : Int) (y : Int),
            if p x y then (1 : Int) else 0))) := by
  intro n
  induction n with
  | zero => intro _ out; simp
  | succ n ih =>
    intro hn out
    rw [List.range_succ, List.foldlM_append, ih (by omega) out]
    simp only [Option.bind_eq_bind, Option.some_bind, List.foldlM_cons, List.foldlM_nil,
      hp n (by omega), List.map_append, List.map_cons, List.map_nil]
    cases h : p (n : Int) (y : Int) <;> simp

theorem LifeToMidi_spec (l : Life) (p : Int → Int → Bool)
    (hp : ∀ x y : Nat, x < l.w.toNat → y < l.h.toNat →
      l.Alive (x : Int) (y : Int) = some (p x y)) :
    ∀ m : Nat, m ≤ l.h.toNat → ∀ out : List (Int × Int × Int),
      (List.range m).foldlM
        (fun (out : List (Int × Int × Int)) (y : Nat) => (List.range l.w.toNat).foldlM
          (fun (out : List (Int × Int × Int)) (x : Nat) =>
            (l.Alive (x : Int) (y : Int)).bind (fun v =>
              if v then some (out ++ [(0x90, buttonIdFromXY (x : Int) (y : Int), 1)])
              else some (out ++ [(0x90, buttonIdFromXY (x : Int) (y : Int), 0)]))) out) out
      = some (out ++ (List.range m).flatMap (fun (y : Nat) => (List.range l.w.toNat).map
          (fun (x : Nat) => ((0x90 : Int), buttonIdFromXY (x : Int) (y : Int),
            if p x y then (1 : Int) else 0)))) := by
  intro m
  induction m with
  | zero => intro _ out; simp
  | succ m ih =>
    intro hm out
    rw [List.range_succ, List.foldlM_append, ih (by omega) out]
    simp only [Option.bind_eq_bind, Option.some_bind, List.foldlM_cons, List.foldlM_nil]
    rw [LifeToMidi_row l p m (fun x hx => hp x m hx (by omega)) l.w.toNat (le_refl _)]
    simp [List.flatMap_append, List.append_assoc]

theorem Life_Alive_some (l : Life) (hl : l.WF) (x y : Int)
    (hx1 : 0 ≤ x) (hx2 : x < l.w) (hy1 : 0 ≤ y) (hy2 : y < l.h) :
    l.Alive x y = some ((l.a.Get x y).getD false) := by
  unfold Life.Alive
  have hx3 : x < l.a.w := by rw [hl.2.2.1]; exact hx2
  have hy3 : y < l.a.h := by rw [hl.2.2.2.1]; exact hy2
  rw [Alive_inBounds l.a hl.1 x y hx1 hx3 hy1 hy3]
  exact Get_getD l.a hl.1 x y hx1 hx3 hy1 hy3

theorem LifeToMidi_eq (l : Life) (hl : l.WF) (out : List (Int × Int × Int)) :
    LifeToMidi l out = some (out ++ (List.range l.h.toNat).flatMap
      (fun (y : Nat) => (List.range l.w.toNat).map
        (fun (x : Nat) => ((0x90 : Int), buttonIdFromXY (x : Int) (y : Int),
          if (l.a.Get (x : Int) (y : Int)).getD false then (1 : Int) else 0)))) := by
  have := LifeToMidi_spec l (fun x y => (l.a.Get x y).getD false)
    (fun x y hx hy => Life_Alive_some l hl x y (by omega) (by omega) (by omega) (by omega))
    l.h.toNat (le_refl _) out
  unfold LifeToMidi Life.H Life.W
  simp only [Option.bind_eq_bind] at this ⊢
  exact this


/-- The 64 messages of a publish of an 8 x 8 grid whose cells are given by `g`. -/
theorem publish8_keys (g : Int → Int → Bool) :
    ((List.range 8).flatMap (fun (y : Nat) => (List.range 8).map
        (fun (x : Nat) => ((0x90 : Int), buttonIdFromXY (x : Int) (y : Int),
          if g (x : Int) (y : Int) then (1 : Int) else 0)))).map (fun m => m.2.1)
      = [56, 57, 58, 59, 60, 61, 62, 63, 48, 49, 50, 51, 52, 53, 54, 55,
         40, 41, 42, 43, 44, 45, 46, 47, 32, 33, 34, 35, 36, 37, 38, 39,
         24, 25, 26, 27, 28, 29, 30, 31, 16, 17, 18, 19, 20, 21, 22, 23,
         8, 9, 10, 11, 12, 13, 14, 15, 0, 1, 2, 3, 4, 5, 6, 7] := by
  rfl

/-- C17: one publish of an 8 x 8 life appends exactly 64 messages to the
output; each has status `0x90`; their key ids are pairwise distinct and are
exactly the integers `0..63`; and the message written for the cell `(x, y)`,
the one at position `8*y + x`, carries `buttonIdFromXY(x, y)` with value 1 when
`Alive(x, y)` and 0 otherwise. The publish only reads the life. -/
theorem LifeToMidi_publishes_each_cell (l : Life) (hl : l.WF) (hw : l.w = 8) (hh : l.h = 8) :
    ∃ msgs : List (Int × Int × Int),
      (∀ out, LifeToMidi l out = some (out ++ msgs)) ∧ msgs.length = 64 ∧
      (∀ m ∈ msgs, m.1 = 0x90) ∧
      (msgs.map (fun m => m.2.1)).Nodup ∧
      (∀ k : Int, k ∈ msgs.map (fun m => m.2.1) ↔ 0 ≤ k ∧ k ≤ 63) ∧
      ∀ x y : Fin 8, ∃ v, l.Alive (x.val : Int) (y.val : Int) = some v ∧
        msgs[y.val * 8 + x.val]?
          = some (0x90, buttonIdFromXY (x.val : Int) (y.val : Int), if v then (1 : Int) else 0) := by
  refine ⟨(List.range 8).flatMap (fun (y : Nat) => (List.range 8).map
      (fun (x : Nat) => ((0x90 : Int), buttonIdFromXY (x : Int) (y : Int),
        if (l.a.Get (x : Int) (y : Int)).getD false then (1 : Int) else 0))), ?_, rfl, ?_, ?_, ?_, ?_⟩
  · intro out
    have := LifeToMidi_eq l hl out
    rw [hh, hw] at this
    exact this
  · intro m hm
    simp only [List.mem_flatMap, List.mem_map] at hm
    obtain ⟨y, _, x, _, rfl⟩ := hm
    rfl
  · rw [publish8_keys (fun x y => (l.a.Get x y).getD false)]
    decide
  · intro k
    rw [publish8_keys (fun x y => (l.a.Get x y).getD false)]
    simp only [List.mem_cons, List.mem_singleton, List.not_mem_nil, or_false]
    omega
  · intro x y
    refine ⟨(l.a.Get (x.val : Int) (y.val : Int)).getD false,
      Life_Alive_some l hl _ _ (by omega) (by omega) (by omega) (by omega), ?_⟩
    fin_cases x <;> fin_cases y <;> rfl


/-- C17, instance: a publish of the 8 x 8 life of dead cells. -/
theorem LifeToMidi_publishes_each_cell_witness :
    ∃ msgs : List (Int × Int × Int),
      (∀ out, LifeToMidi dead8 out = some (out ++ msgs)) ∧ msgs.length = 64 ∧
      (∀ m ∈ msgs, m.1 = 0x90) ∧
      (msgs.map (fun m => m.2.1)).Nodup ∧
      (∀ k : Int, k ∈ msgs.map (fun m => m.2.1) ↔ 0 ≤ k ∧ k ≤ 63) ∧
      ∀ x y : Fin 8, ∃ v, dead8.Alive (x.val : Int) (y.val : Int) = some v ∧
        msgs[y.val * 8 + x.val]?
          = some (0x90, buttonIdFromXY (x.val : Int) (y.val : Int), if v then (1 : Int) else 0) :=
  LifeToMidi_publishes_each_cell dead8 (by decide) rfl rfl

/-! ## The event handler -/

theorem Toggle_spec (l : Life) (hl : l.WF) (x y : Int)
    (hx1 : 0 ≤ x) (hx2 : x < l.w) (hy1 : 0 ≤ y) (hy2 : y < l.h) :
    ∃ l' v, l.a.Get x y = some v ∧ l.Toggle x y = some l' ∧ l'.WF ∧ l'.w = l.w ∧ l'.h = l.h ∧
      l'.b = l.b ∧ l'.a.Get x y = some (!v) ∧
      ∀ c r, 0 ≤ c → 0 ≤ r → ¬ (c = x ∧ r = y) → l'.a.Get c r = l.a.Get c r := by
  obtain ⟨ha, hb, haw, hah, hbw, hbh⟩ := hl
  obtain ⟨v, hv⟩ := Get_isSome l.a ha x y hx1 (by omega) hy1 (by omega)
  obtain ⟨f', e, hf', ew, eh, eg, eo⟩ := Set_spec l.a ha x y hx1 (by omega) hy1 (by omega) (!v)
  refine ⟨{ l with a := f' }, v, hv, ?_, ⟨hf', hb, ew.trans haw, eh.trans hah, hbw, hbh⟩,
    rfl, rfl, rfl, eg, eo⟩
  unfold Life.Toggle
  rw [hv]
  cases v
  · simp only [Bool.not_false] at e
    simp [e]
  · simp only [Bool.not_true] at e
    simp [e]

theorem keyToXY_range (k : Int) (h1 : 0 ≤ k) (h2 : k ≤ 119) :
    0 ≤ (keyToXY k).1 ∧ (keyToXY k).1 < 8 ∧ 0 ≤ (keyToXY k).2 ∧ (keyToXY k).2 < 8 := by
  rw [keyToXY_eq k h1]
  simp only
  refine ⟨by omega, by omega, abs_nonneg _, ?_⟩
  rw [abs_lt]
  omega

theorem handleEvent_clear (c : Consumer) (e : Event) (hl : c.life.WF)
    (he : e.Status = 144 ∧ e.Data1 = 89 ∧ e.Data2 = 127) :
    ∃ c', handleEvent c e = some c' ∧ c.life.Clear = some c'.life ∧ c'.life.WF ∧
      c'.life.w = c.life.w ∧ c'.life.h = c.life.h ∧
      (∀ x y, 0 ≤ x → x < c.life.w → 0 ≤ y → y < c.life.h → c'.life.a.Get x y = some false) := by
  obtain ⟨l1, e1, hwf, hw1, hh1, _, hc⟩ := Clear_spec c.life hl
  obtain ⟨o, e2⟩ : ∃ o, LifeToMidi l1 c.out = some o := ⟨_, LifeToMidi_eq l1 hwf c.out⟩
  refine ⟨{ keep_running := flagAfter c.keep_running e, life := l1, out := o }, ?_, e1, hwf, hw1,
    hh1, hc⟩
  unfold handleEvent
  simp only [he, and_self, if_true, e1, e2, Option.bind_eq_bind, Option.some_bind]

theorem handleEvent_toggle (c : Consumer) (e : Event) (hl : c.life.WF)
    (hw : c.life.w = 8) (hh : c.life.h = 8)
    (he : e.Status = 144 ∧ e.Data2 = 127) (hn : e.Data1 ≠ 89) (h1 : 0 ≤ e.Data1)
    (h2 : e.Data1 ≤ 119) :
    ∃ c', handleEvent c e = some c' ∧
      c.life.Toggle (keyToXY e.Data1).1 (keyToXY e.Data1).2 = some c'.life ∧ c'.life.WF ∧
      c'.life.w = c.life.w ∧ c'.life.h = c.life.h := by
  obtain ⟨r1, r2, r3, r4⟩ := keyToXY_range e.Data1 h1 h2
  obtain ⟨l1, v, _, e1, hwf, hw1, hh1, _⟩ := Toggle_spec c.life hl _ _ r1 (by omega) r3 (by omega)
  refine ⟨{ keep_running := flagAfter c.keep_running e, life := l1, out := c.out }, ?_, e1, hwf,
    hw1, hh1⟩
  unfold handleEvent
  simp only [he, hn, and_self, and_true, and_false, true_and, if_true, if_false, e1,
    Option.bind_eq_bind, Option.some_bind]

theorem handleEvent_other (c : Consumer) (e : Event) (he : e.Status ≠ 144 ∨ e.Data2 ≠ 127) :
    handleEvent c e
      = some { keep_running := flagAfter c.keep_running e, life := c.life, out := c.out } := by
  unfold handleEvent
  have h1 : ¬ (e.Status = 144 ∧ e.Data1 = 89 ∧ e.Data2 = 127) := by
    rintro ⟨a, _, b⟩; rcases he with h | h
    · exact h a
    · exact h b
  have h2 : ¬ (e.Status = 144 ∧ e.Data2 = 127) := by
    rintro ⟨a, b⟩; rcases he with h | h
    · exact h a
    · exact h b
  simp only [h1, h2, if_false]


/-- C11, as stated for every `Data1` in `0..255`, fails at key id 120: the
event is a key press that is not the clear key, the computed coordinate is
`(0, 8)`, and `Toggle(0, 8)` on the 8 x 8 life indexes row 8 and panics. -/
theorem Toggle_call_key_120_out_of_bounds :
    NewLife 8 8 = some dead8 ∧ keyToXY 120 = (0, 8) ∧
    dead8.Toggle 0 8 = none ∧
    (handleEvent consumer8 { Timestamp := 0, Status := 144, Data1 := 120, Data2 := 127 }).isNone
      = true :=
  ⟨by decide, by decide, by decide, rfl⟩

/-- C11, amended to key ids `0..119`: for every event whose `Data1` is in
`0..119` (whatever its `Status` and `Data2`), the coordinate the input consumer
computes satisfies `0 ≤ x < 8` and `0 ≤ y < 8`, and handling the event on an
8 x 8 life returns, so the `Get` and `Set` inside `Toggle` stay in range. -/
theorem Toggle_call_in_bounds (c : Consumer) (e : Event) (hl : c.life.WF)
    (hw : c.life.w = 8) (hh : c.life.h = 8) (h1 : 0 ≤ e.Data1) (h2 : e.Data1 ≤ 119) :
    (0 ≤ (keyToXY e.Data1).1 ∧ (keyToXY e.Data1).1 < 8 ∧
      0 ≤ (keyToXY e.Data1).2 ∧ (keyToXY e.Data1).2 < 8) ∧
    (∃ l', c.life.Toggle (keyToXY e.Data1).1 (keyToXY e.Data1).2 = some l') ∧
    ∃ c', handleEvent c e = some c' ∧ c'.life.WF ∧ c'.life.w = 8 ∧ c'.life.h = 8 := by
  obtain ⟨r1, r2, r3, r4⟩ := keyToXY_range e.Data1 h1 h2
  refine ⟨⟨r1, r2, r3, r4⟩, ?_, ?_⟩
  · obtain ⟨l', _, _, e1, _⟩ := Toggle_spec c.life hl _ _ r1 (by omega) r3 (by omega)
    exact ⟨l', e1⟩
  · by_cases hc : e.Status = 144 ∧ e.Data1 = 89 ∧ e.Data2 = 127
    · obtain ⟨c', e1, _, hwf, hw1, hh1, _⟩ := handleEvent_clear c e hl hc
      exact ⟨c', e1, hwf, hw1.trans hw, hh1.trans hh⟩
    · by_cases ht : e.Status = 144 ∧ e.Data2 = 127
      · have hn : e.Data1 ≠ 89 := fun h => hc ⟨ht.1, h, ht.2⟩
        obtain ⟨c', e1, _, hwf, hw1, hh1⟩ := handleEvent_toggle c e hl hw hh ht hn h1 h2
        exact ⟨c', e1, hwf, hw1.trans hw, hh1.trans hh⟩
      · have ho : e.Status ≠ 144 ∨ e.Data2 ≠ 127 := by
          by_cases hs : e.Status = 144
          · exact Or.inr (fun h => ht ⟨hs, h⟩)
          · exact Or.inl hs
        exact ⟨_, handleEvent_other c e ho, hl, hw, hh⟩

/-- C11, instance: the key 119, the last one whose row is on the grid. -/
theorem Toggle_call_in_bounds_witness :
    (0 ≤ (keyToXY 119).1 ∧ (keyToXY 119).1 < 8 ∧ 0 ≤ (keyToXY 119).2 ∧ (keyToXY 119).2 < 8) ∧
    (∃ l', consumer8.life.Toggle (keyToXY 119).1 (keyToXY 119).2 = some l') ∧
    ∃ c', handleEvent consumer8 { Timestamp := 0, Status := 144, Data1 := 119, Data2 := 127 }
        = some c' ∧ c'.life.WF ∧ c'.life.w = 8 ∧ c'.life.h = 8 :=
  Toggle_call_in_bounds consumer8 { Timestamp := 0, Status := 144, Data1 := 119, Data2 := 127 }
    (by decide) rfl rfl (by decide) (by decide)

/-- C14, as stated for every event with `Status` 144, fails for a press whose
velocity is not 127: the event `(144, 10, 100)` leaves the life as it was, so
the cell `(2, 6)` of key 10 is not flipped. -/
theorem press_with_other_velocity_ignored :
    (10 : Int) % 8 = 2 ∧ (7 : Int) - 10 / 8 = 6 ∧ dead8.a.Get 2 6 = some false ∧
    ∃ c', handleEvent consumer8 { Timestamp := 0, Status := 144, Data1 := 10, Data2 := 100 }
        = some c' ∧ c'.life = dead8 ∧ c'.life.a.Get 2 6 = some false :=
  ⟨by decide, by decide, by decide, _, rfl, rfl, by decide⟩

/-- C14, amended with the velocity test of the code: on an 8 x 8 life, an event
with the clear signature `(144, 89, 127)` runs `Clear` and leaves every cell
dead; an event with `Status = 144`, `Data2 = 127` and key id `k` in `0..63`
flips exactly the cell `(k mod 8, 7 - k div 8)`; and an event with
`Status ≠ 144` or `Data2 ≠ 127` leaves the life unchanged. -/
theorem handleEvent_dispatch (c : Consumer) (e : Event) (hl : c.life.WF)
    (hw : c.life.w = 8) (hh : c.life.h = 8) :
    (e.Status = 144 ∧ e.Data1 = 89 ∧ e.Data2 = 127 →
      ∃ c', handleEvent c e = some c' ∧ c.life.Clear = some c'.life ∧
        ∀ x y, 0 ≤ x → x < 8 → 0 ≤ y → y < 8 → c'.life.a.Get x y = some false) ∧
    (e.Status = 144 ∧ e.Data2 = 127 ∧ 0 ≤ e.Data1 ∧ e.Data1 ≤ 63 →
      ∃ c' v, handleEvent c e = some c' ∧
        c.life.Toggle (e.Data1 % 8) (7 - e.Data1 / 8) = some c'.life ∧
        c.life.a.Get (e.Data1 % 8) (7 - e.Data1 / 8) = some v ∧
        c'.life.a.Get (e.Data1 % 8) (7 - e.Data1 / 8) = some (!v) ∧
        (∀ x y, 0 ≤ x → x < 8 → 0 ≤ y → y < 8 →
          ¬ (x = e.Data1 % 8 ∧ y = 7 - e.Data1 / 8) →
            c'.life.a.Get x y = c.life.a.Get x y) ∧
        c'.life.b = c.life.b) ∧
    (e.Status ≠ 144 ∨ e.Data2 ≠ 127 →
      ∃ c', handleEvent c e = some c' ∧ c'.life = c.life) := by
  refine ⟨?_, ?_, ?_⟩
  · intro he
    obtain ⟨c', e1, e2, _, _, _, hd⟩ := handleEvent_clear c e hl he
    exact ⟨c', e1, e2, fun x y a1 a2 a3 a4 => hd x y a1 (by omega) a3 (by omega)⟩
  · rintro ⟨hs, hv, k1, k2⟩
    have hxy : keyToXY e.Data1 = (e.Data1 % 8, 7 - e.Data1 / 8) := by
      rw [keyToXY_eq _ k1, abs_of_nonpos (by omega)]
      congr 1
      omega
    obtain ⟨c', e1, e2, _⟩ :=
      handleEvent_toggle c e hl hw hh ⟨hs, hv⟩ (by omega) k1 (by omega)
    rw [hxy] at e2
    simp only at e2
    obtain ⟨l', v, g1, g2, _, _, _, g6, g7, g8⟩ :=
      Toggle_spec c.life hl (e.Data1 % 8) (7 - e.Data1 / 8) (by omega) (by omega) (by omega)
        (by omega)
    have hl' : c'.life = l' := Option.some.inj (e2.symm.trans g2)
    refine ⟨c', v, e1, e2, g1, ?_, ?_, ?_⟩
    · rw [hl']; exact g7
    · intro x y a1 _ a3 _ hne
      rw [hl']; exact g8 x y a1 a3 hne
    · rw [hl']; exact g6
  · intro ho
    exact ⟨_, handleEvent_other c e ho, rfl⟩

/-- C14, instance: a press of key 10 with velocity 127 on the 8 x 8 life of
dead cells flips the cell `(2, 6)`. -/
theorem handleEvent_dispatch_witness :
    ∃ c' v, handleEvent consumer8 { Timestamp := 0, Status := 144, Data1 := 10, Data2 := 127 }
        = some c' ∧
      consumer8.life.Toggle ((10 : Int) % 8) (7 - (10 : Int) / 8) = some c'.life ∧
      consumer8.life.a.Get ((10 : Int) % 8) (7 - (10 : Int) / 8) = some v ∧
      c'.life.a.Get ((10 : Int) % 8) (7 - (10 : Int) / 8) = some (!v) ∧
      (∀ x y, 0 ≤ x → x < 8 → 0 ≤ y → y < 8 →
        ¬ (x = (10 : Int) % 8 ∧ y = 7 - (10 : Int) / 8) →
          c'.life.a.Get x y = consumer8.life.a.Get x y) ∧
      c'.life.b = consumer8.life.b :=
  (handleEvent_dispatch consumer8 { Timestamp := 0, Status := 144, Data1 := 10, Data2 := 127 }
    (by decide) rfl rfl).2.1 ⟨rfl, rfl, by decide, by decide⟩

/-! ## `Alive` from one grid to the left upwards -/

theorem Alive_eq_Get_emod (f : Field) (hw : 1 ≤ f.w) (hh : 1 ≤ f.h) (x y : Int)
    (hx1 : -f.w ≤ x) (hx2 : x ≤ 9223372036854775807 - f.w)
    (hy1 : -f.h ≤ y) (hy2 : y ≤ 9223372036854775807 - f.h) :
    f.Alive x y = f.Get (x % f.w) (y % f.h) := by
  unfold Field.Alive Field.Get
  rw [wrap64_of_range _ (by omega) (by omega), wrap64_of_range _ (by omega) (by omega),
    goMod_of_nonneg _ _ (by omega) (by omega), goMod_of_nonneg _ _ (by omega) (by omega),
    Int.add_emod_self, Int.add_emod_self]
  rfl

theorem Next_isSome (f : Field) (hf : f.WF) (hw : 1 ≤ f.w) (hh : 1 ≤ f.h) (x y : Int)
    (hx1 : 0 ≤ x) (hx2 : x < f.w) (hy1 : 0 ≤ y) (hy2 : y < f.h) : ∃ b, f.Next x y = some b :=
  ⟨_, Next_eq_rule f hf hw hh _ (Get_getD f hf) x y hx1 hx2 hy1 hy2⟩

/-- C19, at the failing input: on the 3 x 3 field of dead cells, with
`x = 2^63 - 2 ≥ -w`, `Alive(x, 0)` adds 3, which wraps to `-2^63 + 1`, takes the
remainder `-1` and indexes out of range, where the comment on `Alive` says the
coordinate is wrapped toroidally (it would read the cell `(0, 0)`, which
`Alive(0, 0)` returns as dead). -/
theorem Alive_near_max_int_panics :
    ∃ f, NewField 3 3 = some f ∧ f.WF ∧ 1 ≤ f.w ∧ 1 ≤ f.h ∧
      -f.w ≤ 9223372036854775806 ∧ -f.h ≤ (0 : Int) ∧
      wrap64 (9223372036854775806 + f.w) = -9223372036854775807 ∧
      (9223372036854775806 : Int) % f.w = 0 ∧ f.Alive 0 0 = some false ∧
      f.Alive 9223372036854775806 0 = none :=
  ⟨_, rfl, by decide, by decide, by decide, by decide, by decide, by decide, by decide,
    by decide, by decide⟩

/-- Where `Alive` does wrap: on a grid with positive dimensions, for
`-w ≤ x ≤ 2^63 - 1 - w` and `-h ≤ y ≤ 2^63 - 1 - h`, `Alive(x, y)` returns the
value stored at `(x mod w, y mod h)` (non-negative remainders); in particular
every `Alive(x+i, y+j)` that `Next` calls for an in-bounds `(x, y)` returns, so
`Next` returns on every in-bounds cell and `Step` returns. -/
theorem Alive_safe_within_int_range (l : Life) (hl : l.WF) (hw : 1 ≤ l.w) (hh : 1 ≤ l.h)
    (x y : Int) (hx1 : -l.w ≤ x) (hx2 : x ≤ 9223372036854775807 - l.w)
    (hy1 : -l.h ≤ y) (hy2 : y ≤ 9223372036854775807 - l.h) :
    (∃ v, l.a.Alive x y = some v ∧ l.a.Get (x % l.w) (y % l.h) = some v ∧
      0 ≤ x % l.w ∧ x % l.w < l.w ∧ 0 ≤ y % l.h ∧ y % l.h < l.h) ∧
    (∀ cx cy, 0 ≤ cx → cx < l.w → 0 ≤ cy → cy < l.h →
      (∀ i j, -1 ≤ i → i ≤ 1 → -1 ≤ j → j ≤ 1 → ∃ v, l.a.Alive (cx + i) (cy + j) = some v) ∧
      ∃ b, l.a.Next cx cy = some b) ∧
    ∃ l', l.Step = some l' := by
  have ha := hl.1
  have ew := hl.2.2.1
  have eh := hl.2.2.2.1
  have hwb := ha.2.2.1
  have hhb := ha.2.2.2.1
  rw [ew] at hwb
  rw [eh] at hhb
  have m1 := Int.emod_nonneg x (show l.w ≠ 0 by omega)
  have m2 := Int.emod_lt_of_pos x (show 0 < l.w by omega)
  have m3 := Int.emod_nonneg y (show l.h ≠ 0 by omega)
  have m4 := Int.emod_lt_of_pos y (show 0 < l.h by omega)
  refine ⟨?_, ?_, ?_⟩
  · obtain ⟨v, hv⟩ := Get_isSome l.a ha (x % l.w) (y % l.h) m1 (by rw [ew]; exact m2) m3
      (by rw [eh]; exact m4)
    refine ⟨v, ?_, hv, m1, m2, m3, m4⟩
    have := Alive_eq_Get_emod l.a (by omega) (by omega) x y (by omega) (by omega)
      (by omega) (by omega)
    rw [ew, eh] at this
    rw [this, hv]
  · intro cx cy c1 c2 c3 c4
    constructor
    · intro i j i1 i2 j1 j2
      exact ⟨_, Alive_neighbour l.a ha (by omega) (by omega) _ (Get_getD l.a ha) cx cy c1 (by omega)
        c3 (by omega) i j i1 i2 j1 j2⟩
    · exact Next_isSome l.a ha (by omega) (by omega) cx cy c1 (by omega) c3 (by omega)
  · obtain ⟨l', h, _⟩ := Step_spec l hl hw hh _
      (fun c r h1 h2 h3 h4 => Get_getD l.a ha c r h1 (by omega) h3 (by omega))
    exact ⟨l', h⟩

/-! ## `Stream.read` and the polling loop -/

theorem read_loop (buffer : List PmEvent) :
    ∀ n : Nat, n ≤ buffer.length →
      (List.range n).foldlM
        (fun (events : List Event) (i : Nat) =>
          (index buffer (i : Int)).bind (fun e => some (events ++ [readEvent e])))
        ([] : List Event)
      = some ((buffer.take n).map readEvent) := by
  intro n
  induction n with
  | zero => intro _; rfl
  | succ n ih =>
    intro hn
    rw [List.range_succ, List.foldlM_append, ih (by omega)]
    simp only [Option.bind_eq_bind, Option.some_bind, List.foldlM_cons, List.foldlM_nil,
      index_natCast, List.getElem?_eq_getElem (show n < buffer.length by omega)]
    rw [List.take_succ, List.getElem?_eq_getElem (show n < buffer.length by omega)]
    simp only [Option.toList_some, List.map_append, List.map_cons, List.map_nil]
    rfl

theorem read_1024 (numEvents : Int) (buffer : List PmEvent) (hn : numEvents ≤ buffer.length) :
    Stream.read 1024 numEvents buffer =
      some (if numEvents < 0 then .error (.pm numEvents)
        else .ok ((buffer.take numEvents.toNat).map readEvent)) := by
  unfold Stream.read
  rw [if_neg (by decide), if_neg (by decide)]
  split_ifs with h
  · rfl
  · have := read_loop buffer numEvents.toNat (by omega)
    simp only [Option.bind_eq_bind] at this ⊢
    rw [this]
    rfl

/-- C18: one polling iteration, when `Pm_Read` reports no more events than the
buffer holds, does not panic; it sends a batch on the channel exactly when the
read returned without error at least one event, and the batch sent is the list
of the events read, in buffer order; after a failed read or an empty one the
channel is as before and the loop goes on. -/
theorem listenPoll_delivers_nonempty_reads (ch : List (List Event)) (numEvents : Int)
    (buffer : List PmEvent) (hn : numEvents ≤ buffer.length) :
    ∃ r ch', Stream.read 1024 numEvents buffer = some r ∧
      Stream.listenPoll ch numEvents buffer = some ch' ∧
      (ch' ≠ ch ↔ ∃ events, r = .ok events ∧ events ≠ []) ∧
      (∀ err, r = .error err → ch' = ch) ∧
      (r = .ok [] → ch' = ch) ∧
      (∀ events, r = .ok events → events ≠ [] →
        ch' = ch ++ [events] ∧ events = (buffer.take numEvents.toNat).map readEvent) := by
  have hr := read_1024 numEvents buffer hn
  by_cases h : numEvents < 0
  · rw [if_pos h] at hr
    refine ⟨_, ch, hr, ?_, ?_, ?_, ?_, ?_⟩
    · unfold Stream.listenPoll; rw [hr]; rfl
    · simp
    · intro _ _; rfl
    · intro h'; cases h'
    · intro events h'; cases h'
  · rw [if_neg h] at hr
    by_cases he : (buffer.take numEvents.toNat).map readEvent = []
    · rw [he] at hr
      refine ⟨_, ch, hr, ?_, ?_, ?_, ?_, ?_⟩
      · unfold Stream.listenPoll; rw [hr]; rfl
      · simp
      · intro _ _; rfl
      · intro _; rfl
      · intro events h1 h2
        injection h1 with h1
        exact absurd h1.symm h2
    · refine ⟨_, ch ++ [(buffer.take numEvents.toNat).map readEvent], hr, ?_, ?_, ?_, ?_, ?_⟩
      · unfold Stream.listenPoll; rw [hr]
        have : 0 < ((buffer.take numEvents.toNat).map readEvent).length :=
          List.length_pos.mpr he
        simp only [Option.bind_eq_bind, Option.some_bind, gt_iff_lt, this, if_true]
      · constructor
        · intro _; exact ⟨_, rfl, he⟩
        · intro _ h'
          have := congrArg List.length h'
          simp at this
      · intro err h'; cases h'
      · intro h'
        injection h' with h'
        exact absurd h' he
      · intro events h1 _
        injection h1 with h1
        subst h1
        exact ⟨rfl, rfl⟩


/-- An instance: `Alive(-1, -4)` on the 4 x 4 column reads the cell `(3, 0)`. -/
theorem Alive_safe_within_int_range_witness :
    (∃ v, column4.a.Alive (-1) (-4) = some v ∧
      column4.a.Get (-1 % column4.w) (-4 % column4.h) = some v ∧
      0 ≤ -1 % column4.w ∧ -1 % column4.w < column4.w ∧
      0 ≤ -4 % column4.h ∧ -4 % column4.h < column4.h) ∧
    (∀ cx cy, 0 ≤ cx → cx < column4.w → 0 ≤ cy → cy < column4.h →
      (∀ i j, -1 ≤ i → i ≤ 1 → -1 ≤ j → j ≤ 1 →
        ∃ v, column4.a.Alive (cx + i) (cy + j) = some v) ∧
      ∃ b, column4.a.Next cx cy = some b) ∧
    ∃ l', column4.Step = some l' :=
  Alive_safe_within_int_range column4 (by decide) (by decide) (by decide) (-1) (-4)
    (by decide) (by decide) (by decide) (by decide)

/-- C18, instance: a read of two events into a two-entry buffer, on a channel
that already holds one batch. -/
theorem listenPoll_delivers_nonempty_reads_witness :
    ∃ r ch', Stream.read 1024 2 [⟨8325520, 3⟩, ⟨1, 4⟩] = some r ∧
      Stream.listenPoll [[⟨0, 128, 82, 127⟩]] 2 [⟨8325520, 3⟩, ⟨1, 4⟩] = some ch' ∧
      (ch' ≠ [[⟨0, 128, 82, 127⟩]] ↔ ∃ events, r = .ok events ∧ events ≠ []) ∧
      (∀ err, r = .error err → ch' = [[⟨0, 128, 82, 127⟩]]) ∧
      (r = .ok [] → ch' = [[⟨0, 128, 82, 127⟩]]) ∧
      (∀ events, r = .ok events → events ≠ [] →
        ch' = [[⟨0, 128, 82, 127⟩]] ++ [events] ∧
        events = (([⟨8325520, 3⟩, ⟨1, 4⟩] : List PmEvent).take (2 : Int).toNat).map readEvent) :=
  listenPoll_delivers_nonempty_reads [[⟨0, 128, 82, 127⟩]] 2 [⟨8325520, 3⟩, ⟨1, 4⟩] (by decide)

/-! ## Message words -/

theorem and_mask (n k w : Nat) : n &&& ((2 ^ w - 1) <<< k) = ((n >>> k) % 2 ^ w) <<< k := by
  apply Nat.eq_of_testBit_eq
  intro i
  simp only [Nat.testBit_and, Nat.testBit_shiftLeft, Nat.testBit_two_pow_sub_one,
    Nat.testBit_mod_two_pow, Nat.testBit_shiftRight]
  by_cases h : i ≥ k
  · have e : k + (i - k) = i := by omega
    simp only [h, decide_True, Bool.true_and, e]
    exact Bool.and_comm _ _
  · simp [h]

theorem and_byte_at (n k : Nat) :
    n &&& (255 * 2 ^ k) = (n / 2 ^ k % 256) * 2 ^ k := by
  have := and_mask n k 8
  simp only [Nat.shiftLeft_eq, Nat.shiftRight_eq_div_pow] at this
  exact this

theorem bits64_lt (x : Int) : bits64 x < 18446744073709551616 := by
  unfold bits64; omega

theorem bits64_cast (x : Int) : ((bits64 x : Nat) : Int) = x % 18446744073709551616 := by
  unfold bits64; omega

theorem bits64_of_small (n : Nat) (h : n < 18446744073709551616) : bits64 (n : Int) = n := by
  unfold bits64; omega

theorem goAnd_byte (a : Int) : goAnd a 0xFF = a % 256 := by
  unfold goAnd
  have h1 : bits64 0xFF = 255 * 2 ^ 0 := by decide
  rw [h1, and_byte_at]
  have := bits64_cast a
  have h2 := bits64_lt a
  simp only [pow_zero, Nat.div_one, Nat.mul_one]
  rw [wrap64_of_range _ (by omega) (by omega)]
  omega


theorem bits64_goShl (d : Int) (k : Nat) :
    ((bits64 (goShl d k) : Nat) : Int) = (d * 2 ^ k) % 18446744073709551616 := by
  rw [bits64_cast]
  unfold goShl wrap64
  omega

theorem goAnd_shl16 (d : Int) : goAnd (goShl d 16) 0xFF0000 = (d % 256) * 65536 := by
  unfold goAnd
  have h1 : bits64 0xFF0000 = 255 * 2 ^ 16 := by decide
  rw [h1, and_byte_at]
  have h2 := bits64_goShl d 16
  have h3 := bits64_lt (goShl d 16)
  norm_num at h2 ⊢
  rw [wrap64_of_range _ (by omega) (by omega)]
  omega

theorem goAnd_shl8 (d : Int) : goAnd (goShl d 8) 0xFF00 = (d % 256) * 256 := by
  unfold goAnd
  have h1 : bits64 0xFF00 = 255 * 2 ^ 8 := by decide
  rw [h1, and_byte_at]
  have h2 := bits64_goShl d 8
  have h3 := bits64_lt (goShl d 8)
  norm_num at h2 ⊢
  rw [wrap64_of_range _ (by omega) (by omega)]
  omega

theorem goOr_bytes (A B C : Nat) (hA : A < 256) (hB : B < 256) (hC : C < 256) :
    goOr (goOr ((A : Int) * 65536) ((B : Int) * 256)) (C : Int)
      = (A : Int) * 65536 + (B : Int) * 256 + (C : Int) := by
  have e1 : bits64 ((A : Int) * 65536) = 2 ^ 16 * A := by unfold bits64; omega
  have e2 : bits64 ((B : Int) * 256) = 2 ^ 8 * B := by unfold bits64; omega
  have e3 : bits64 (C : Int) = C := by unfold bits64; omega
  have o1 : 2 ^ 16 * A ||| 2 ^ 8 * B = 2 ^ 16 * A + 2 ^ 8 * B :=
    (Nat.mul_add_lt_is_or (show 2 ^ 8 * B < 2 ^ 16 by omega) A).symm
  have inner : goOr ((A : Int) * 65536) ((B : Int) * 256) = ((2 ^ 16 * A + 2 ^ 8 * B : Nat) : Int) := by
    unfold goOr
    rw [e1, e2, o1, wrap64_of_range _ (by omega) (by omega)]
  have e4 : bits64 ((2 ^ 16 * A + 2 ^ 8 * B : Nat) : Int) = 2 ^ 8 * (2 ^ 8 * A + B) := by
    unfold bits64; omega
  have o2 : 2 ^ 8 * (2 ^ 8 * A + B) ||| C = 2 ^ 8 * (2 ^ 8 * A + B) + C :=
    (Nat.mul_add_lt_is_or (show C < 2 ^ 8 by omega) _).symm
  rw [inner]
  unfold goOr
  rw [e4, e3, o2, wrap64_of_range _ (by omega) (by omega)]
  omega

theorem writeMessage_eq (evt : Event) :
    writeMessage evt = (evt.Data2 % 256) * 65536 + (evt.Data1 % 256) * 256 + evt.Status % 256 := by
  unfold writeMessage
  rw [goAnd_shl16, goAnd_shl8, goAnd_byte]
  have := goOr_bytes (evt.Data2 % 256).toNat (evt.Data1 % 256).toNat (evt.Status % 256).toNat
    (by omega) (by omega) (by omega)
  rw [Int.toNat_of_nonneg (by omega), Int.toNat_of_nonneg (by omega),
    Int.toNat_of_nonneg (by omega)] at this
  exact this

/-- C20: for `Status`, `Data1`, `Data2` in `0..255` the word built by
`Stream.Write` lies in `0..2^24-1` and `Stream.read` decodes it back to the same
three values; for arbitrary values the decoded fields are the inputs reduced
modulo 256. -/
theorem write_read_roundtrip (t s d1 d2 : Int) (hs : 0 ≤ s ∧ s ≤ 255)
    (h1 : 0 ≤ d1 ∧ d1 ≤ 255) (h2 : 0 ≤ d2 ∧ d2 ≤ 255) :
    (0 ≤ writeMessage ⟨t, s, d1, d2⟩ ∧ writeMessage ⟨t, s, d1, d2⟩ < 16777216) ∧
    readEvent ⟨writeMessage ⟨t, s, d1, d2⟩, t⟩ = ⟨t, s, d1, d2⟩ ∧
    ∀ t' s' d1' d2' : Int,
      (0 ≤ writeMessage ⟨t', s', d1', d2'⟩ ∧ writeMessage ⟨t', s', d1', d2'⟩ < 16777216) ∧
      readEvent ⟨writeMessage ⟨t', s', d1', d2'⟩, t'⟩ = ⟨t', s' % 256, d1' % 256, d2' % 256⟩ := by
  have gen : ∀ t' s' d1' d2' : Int,
      (0 ≤ writeMessage ⟨t', s', d1', d2'⟩ ∧ writeMessage ⟨t', s', d1', d2'⟩ < 16777216) ∧
      readEvent ⟨writeMessage ⟨t', s', d1', d2'⟩, t'⟩
        = ⟨t', s' % 256, d1' % 256, d2' % 256⟩ := by
    intro t' s' d1' d2'
    have e := writeMessage_eq ⟨t', s', d1', d2'⟩
    simp only at e
    refine ⟨by omega, ?_⟩
    unfold readEvent
    simp only [goAnd_byte, goShr, e, Event.mk.injEq, true_and]
    refine ⟨?_, ?_, ?_⟩ <;> omega
  refine ⟨(gen t s d1 d2).1, ?_, gen⟩
  rw [(gen t s d1 d2).2]
  simp only [Event.mk.injEq, true_and]
  refine ⟨?_, ?_, ?_⟩ <;> omega

/-- C20, instance: the note-on of key 10 with velocity 127. -/
theorem write_read_roundtrip_witness :
    (0 ≤ writeMessage ⟨5, 144, 10, 127⟩ ∧ writeMessage ⟨5, 144, 10, 127⟩ < 16777216) ∧
    readEvent ⟨writeMessage ⟨5, 144, 10, 127⟩, 5⟩ = ⟨5, 144, 10, 127⟩ ∧
    ∀ t' s' d1' d2' : Int,
      (0 ≤ writeMessage ⟨t', s', d1', d2'⟩ ∧ writeMessage ⟨t', s', d1', d2'⟩ < 16777216) ∧
      readEvent ⟨writeMessage ⟨t', s', d1', d2'⟩, t'⟩ = ⟨t', s' % 256, d1' % 256, d2' % 256⟩ :=
  write_read_roundtrip 5 144 10 127 (by decide) (by decide) (by decide)

/-! ## `RandomInit` -/

theorem count_set_true (row : List Bool) :
    ∀ x : Nat, x < row.length →
      (row.set x true).count true = row.count true + (if row[x]? = some true then 0 else 1) := by
  induction row with
  | nil => intro x hx; simp at hx
  | cons b bs ih =>
    intro x hx
    cases x with
    | zero => cases b <;> simp
    | succ x =>
      have := ih x (by simpa using hx)
      simp only [List.set_cons_succ, List.count_cons, List.getElem?_cons_succ, this]
      omega

theorem sum_map_set (g : List Bool → Nat) (s : List (List Bool)) :
    ∀ (y : Nat) (hy : y < s.length) (r : List Bool),
      ((s.set y r).map g).sum + g s[y] = (s.map g).sum + g r := by
  induction s with
  | nil => intro y hy; simp at hy
  | cons a as ih =>
    intro y hy r
    cases y with
    | zero => simp; omega
    | succ y =>
      have := ih y (by simpa using hy) r
      simp only [List.set_cons_succ, List.map_cons, List.sum_cons, List.getElem_cons_succ]
      omega

theorem liveCount_setCell (s : List (List Bool)) {w h x y : Nat} (hs : Shape s w h)
    (hx : x < w) (hy : y < h) :
    ((setCell s x y true).map (fun row => row.count true)).sum
      = (s.map (fun row => row.count true)).sum + (if cell s x y = some true then 0 else 1) := by
  obtain ⟨hl, hr⟩ := hs
  have hy' : y < s.length := by omega
  have hrow : (s[y]).length = w := hr _ (List.getElem_mem _)
  have h1 := sum_map_set (fun row => row.count true) s y hy' ((s[y]).set x true)
  have h2 := count_set_true s[y] x (by omega)
  simp only at h1
  have e : cell s x y = (s[y])[x]? := by
    unfold cell; rw [List.getElem?_eq_getElem hy']
  unfold setCell
  rw [List.getElem?_eq_getElem hy', Option.getD_some, e]
  omega

theorem liveCount_zero_of_dead (s : List (List Bool)) {w h : Nat} (hs : Shape s w h)
    (hd : ∀ x y, x < w → y < h → cell s x y = some false) :
    (s.map (fun row => row.count true)).sum = 0 := by
  obtain ⟨hl, hr⟩ := hs
  apply List.sum_eq_zero
  intro n hn
  rw [List.mem_map] at hn
  obtain ⟨row, hrow, rfl⟩ := hn
  rw [List.count_eq_zero]
  intro ht
  obtain ⟨y, hy, rfl⟩ := List.mem_iff_getElem.mp hrow
  obtain ⟨x, hx, hx'⟩ := List.mem_iff_getElem.mp ht
  have hw' : (s[y]).length = w := hr _ (List.getElem_mem _)
  have := hd x y (by omega) (by omega)
  unfold cell at this
  rw [List.getElem?_eq_getElem hy] at this
  simp only at this
  rw [List.getElem?_eq_getElem hx, hx'] at this
  cases this

theorem Set_true_spec (f : Field) (hf : f.WF) (x y : Int) (hx1 : 0 ≤ x) (hx2 : x < f.w)
    (hy1 : 0 ≤ y) (hy2 : y < f.h) :
    ∃ f', f.Set x y true = some f' ∧ f'.WF ∧ f'.w = f.w ∧ f'.h = f.h ∧
      f'.Get x y = some true ∧
      (∀ c r, 0 ≤ c → 0 ≤ r → ¬ (c = x ∧ r = y) → f'.Get c r = f.Get c r) ∧
      f.liveCount ≤ f'.liveCount ∧ f'.liveCount ≤ f.liveCount + 1 ∧ 1 ≤ f'.liveCount := by
  obtain ⟨h0, h1, h2, h3, hs⟩ := hf
  have hX : x.toNat < f.w.toNat := by omega
  have hY : y.toNat < f.h.toNat := by omega
  have e := Set_natCast f hs hX hY true
  rw [Int.toNat_of_nonneg hx1, Int.toNat_of_nonneg hy1] at e
  have hc := liveCount_setCell f.s hs hX hY
  refine ⟨_, e, ⟨h0, h1, h2, h3, shape_setCell hs _ _ _⟩, rfl, rfl, ?_, ?_, ?_, ?_, ?_⟩
  · rw [Get_eq_cell _ _ _ hx1 hy1]
    simp only
    rw [cell_setCell hs hX hY, if_pos ⟨rfl, rfl⟩]
  · intro c r hc1 hr1 hne
    rw [Get_eq_cell _ _ _ hc1 hr1, Get_eq_cell _ _ _ hc1 hr1]
    simp only
    rw [cell_setCell hs hX hY, if_neg]
    intro h
    apply hne
    omega
  · unfold Field.liveCount; simp only; rw [hc]; omega
  · unfold Field.liveCount; simp only; rw [hc]; split_ifs <;> omega
  · unfold Field.liveCount; simp only; rw [hc]
    split_ifs with ht
    · obtain ⟨row, hrow⟩ : ∃ row, f.s[y.toNat]? = some row := by
        unfold cell at ht
        cases hq : f.s[y.toNat]? with
        | none => rw [hq] at ht; cases ht
        | some row => exact ⟨row, rfl⟩
      unfold cell at ht
      rw [hrow] at ht
      simp only at ht
      have hmem : row ∈ f.s := List.getElem?_mem hrow
      have htrue : true ∈ row := List.getElem?_mem ht
      have : 0 < row.count true := List.count_pos_iff.mpr htrue
      have := List.single_le_sum (l := f.s.map (fun row => row.count true))
        (fun _ _ => Nat.zero_le _) (row.count true) (List.mem_map.mpr ⟨row, hmem, rfl⟩)
      omega
    · omega


theorem RandomInit_loop (l : Life) (hw : 1 ≤ l.w) (hh : 1 ≤ l.h) (pick : Nat → Int × Int)
    (f : Field) (hf : f.WF) (hfw : f.w = l.w) (hfh : f.h = l.h) :
    ∀ n : Nat,
      (∀ i : Nat, i < n →
        0 ≤ (pick i).1 ∧ (pick i).1 < l.w ∧ 0 ≤ (pick i).2 ∧ (pick i).2 < l.h) →
      ∃ f', (List.range n).foldlM
          (fun (a : Field) (i : Nat) =>
            if l.w ≤ 0 ∨ l.h ≤ 0 then none else a.Set (pick i).1 (pick i).2 true) f = some f' ∧
        f'.WF ∧ f'.w = l.w ∧ f'.h = l.h ∧
        (∀ c r, 0 ≤ c → 0 ≤ r → f.Get c r = some true → f'.Get c r = some true) ∧
        (∀ i : Nat, i < n → f'.Get (pick i).1 (pick i).2 = some true) ∧
        (∀ c r, 0 ≤ c → 0 ≤ r → f'.Get c r = some true →
          f.Get c r = some true ∨ ∃ i : Nat, i < n ∧ pick i = (c, r)) ∧
        f.liveCount ≤ f'.liveCount ∧ f'.liveCount ≤ f.liveCount + n ∧
        (1 ≤ n → 1 ≤ f'.liveCount) := by
  intro n
  induction n with
  | zero =>
    intro _
    exact ⟨f, rfl, hf, hfw, hfh, fun _ _ _ _ h => h, fun i hi => absurd hi (by omega),
      fun _ _ _ _ h => Or.inl h, le_refl _, le_refl _, fun h => absurd h (by omega)⟩
  | succ n ih =>
    intro hp
    obtain ⟨f1, e1, hf1, hw1, hh1, k1, k2, k3, k4, k5, _⟩ := ih (fun i hi => hp i (by omega))
    obtain ⟨p1, p2, p3, p4⟩ := hp n (by omega)
    obtain ⟨f2, e2, hf2, hw2, hh2, g1, g2, g3, g4, g5⟩ :=
      Set_true_spec f1 hf1 (pick n).1 (pick n).2 p1 (by omega) p3 (by omega)
    have same : ∀ c r, 0 ≤ c → 0 ≤ r → f1.Get c r = some true → f2.Get c r = some true := by
      intro c r hc hr h
      by_cases hq : c = (pick n).1 ∧ r = (pick n).2
      · rw [hq.1, hq.2]; exact g1
      · rw [g2 c r hc hr hq]; exact h
    refine ⟨f2, ?_, hf2, hw2.trans hw1, hh2.trans hh1, ?_, ?_, ?_, by omega, by omega,
      fun _ => g5⟩
    · rw [List.range_succ, List.foldlM_append, e1]
      simp only [Option.bind_eq_bind, Option.some_bind, List.foldlM_cons, List.foldlM_nil]
      rw [if_neg (by omega), e2]
      rfl
    · intro c r hc hr h
      exact same c r hc hr (k1 c r hc hr h)
    · intro i hi
      by_cases hin : i = n
      · subst hin; exact g1
      · exact same _ _ (hp i (by omega)).1 (hp i (by omega)).2.2.1 (k2 i (by omega))
    · intro c r hc hr h
      by_cases hq : c = (pick n).1 ∧ r = (pick n).2
      · exact Or.inr ⟨n, by omega, by rw [hq.1, hq.2]⟩
      · rw [g2 c r hc hr hq] at h
        rcases k3 c r hc hr h with h' | ⟨i, hi, hpi⟩
        · exact Or.inl h'
        · exact Or.inr ⟨i, by omega, hpi⟩

theorem RandomInit_congr (l : Life) (pick pick' : Nat → Int × Int) :
    ∀ (n : Nat) (f : Field), (∀ i : Nat, i < n → pick' i = pick i) →
      (List.range n).foldlM
          (fun (a : Field) (i : Nat) =>
            if l.w ≤ 0 ∨ l.h ≤ 0 then none else a.Set (pick' i).1 (pick' i).2 true) f
        = (List.range n).foldlM
          (fun (a : Field) (i : Nat) =>
            if l.w ≤ 0 ∨ l.h ≤ 0 then none else a.Set (pick i).1 (pick i).2 true) f := by
  intro n
  induction n with
  | zero => intro _ _; rfl
  | succ n ih =>
    intro f h
    rw [List.range_succ, List.foldlM_append, List.foldlM_append, ih f (fun i hi => h i (by omega))]
    simp only [List.foldlM_cons, List.foldlM_nil, h n (by omega)]

theorem randomPicks_eq (l : Life) (hw : 1 ≤ l.w) (hh : 1 ≤ l.h)
    (hcells : l.w * l.h ≤ 9223372036854775807) : l.randomPicks = l.w * l.h / 4 := by
  have hpos : 0 < l.w * l.h := Int.mul_pos (by omega) (by omega)
  unfold Life.randomPicks
  rw [wrap64_of_range _ (by omega) (by omega), Int.tdiv_eq_ediv (by omega) (by norm_num)]

/-- C16: on a life with positive dimensions whose number of cells fits a Go
`int`, with every pick in bounds, `RandomInit` returns after exactly
`floor(w*h/4)` picks (the result does not depend on any later pick); every
pick is alive afterwards, every cell alive before stays alive, and a cell alive
afterwards was alive before or was picked; on an all-dead grid the number of
live cells afterwards is at most `floor(w*h/4)`, and at least 1 when
`w*h ≥ 4`. -/
theorem RandomInit_sets_only_alive (l : Life) (hl : l.WF) (hw : 1 ≤ l.w) (hh : 1 ≤ l.h)
    (hcells : l.w * l.h ≤ 9223372036854775807) (pick : Nat → Int × Int)
    (hpick : ∀ i : Nat, (i : Int) < l.w * l.h / 4 →
      0 ≤ (pick i).1 ∧ (pick i).1 < l.w ∧ 0 ≤ (pick i).2 ∧ (pick i).2 < l.h) :
    l.randomPicks = l.w * l.h / 4 ∧
    ∃ l', l.RandomInit pick = some l' ∧
      (∀ pick' : Nat → Int × Int,
        (∀ i : Nat, (i : Int) < l.w * l.h / 4 → pick' i = pick i) →
          l.RandomInit pick' = some l') ∧
      (∀ i : Nat, (i : Int) < l.w * l.h / 4 → l'.a.Get (pick i).1 (pick i).2 = some true) ∧
      (∀ c r, 0 ≤ c → c < l.w → 0 ≤ r → r < l.h →
        l.a.Get c r = some true → l'.a.Get c r = some true) ∧
      (∀ c r, 0 ≤ c → c < l.w → 0 ≤ r → r < l.h → l'.a.Get c r = some true →
        l.a.Get c r = some true ∨ ∃ i : Nat, (i : Int) < l.w * l.h / 4 ∧ pick i = (c, r)) ∧
      l'.b = l.b ∧ l'.w = l.w ∧ l'.h = l.h ∧
      ((∀ c r, 0 ≤ c → c < l.w → 0 ≤ r → r < l.h → l.a.Get c r = some false) →
        (l'.a.liveCount : Int) ≤ l.w * l.h / 4 ∧ (4 ≤ l.w * l.h → 1 ≤ l'.a.liveCount)) := by
  have hn := randomPicks_eq l hw hh hcells
  have hpos : 0 < l.w * l.h := Int.mul_pos (by omega) (by omega)
  obtain ⟨ha, hb, haw, hah, hbw, hbh⟩ := hl
  have hlt : ∀ i : Nat, i < l.randomPicks.toNat ↔ (i : Int) < l.w * l.h / 4 := by
    intro i; rw [hn]; omega
  obtain ⟨f', e, hf', hw', hh', k1, k2, k3, k4, k5, k6⟩ :=
    RandomInit_loop l hw hh pick l.a ha haw hah l.randomPicks.toNat
      (fun i hi => hpick i ((hlt i).mp hi))
  refine ⟨hn, { l with a := f' }, ?_, ?_, ?_, ?_, ?_, rfl, rfl, rfl, ?_⟩
  · unfold Life.RandomInit
    simp only [Option.bind_eq_bind] at e ⊢
    rw [e]; rfl
  · intro pick' hp'
    unfold Life.RandomInit
    rw [RandomInit_congr l pick pick' _ l.a (fun i hi => hp' i ((hlt i).mp hi))]
    simp only [Option.bind_eq_bind] at e ⊢
    rw [e]; rfl
  · intro i hi
    exact k2 i ((hlt i).mpr hi)
  · intro c r h1 _ h3 _ h
    exact k1 c r h1 h3 h
  · intro c r h1 _ h3 _ h
    rcases k3 c r h1 h3 h with h' | ⟨i, hi, hpi⟩
    · exact Or.inl h'
    · exact Or.inr ⟨i, (hlt i).mp hi, hpi⟩
  · intro hdead
    have hz : l.a.liveCount = 0 := by
      unfold Field.liveCount
      apply liveCount_zero_of_dead l.a.s ha.2.2.2.2
      intro x y hx hy
      rw [← Get_natCast]
      exact hdead x y (by omega) (by omega) (by omega) (by omega)
    simp only
    constructor
    · rw [hn] at k5; omega
    · intro h4
      apply k6
      rw [hn]; omega


/-- C16, instance: the 4 x 4 column, with the four picks all falling on
`(2, 3)`. -/
theorem RandomInit_sets_only_alive_witness :
    column4.randomPicks = column4.w * column4.h / 4 ∧
    ∃ l', column4.RandomInit (fun _ => (2, 3)) = some l' ∧
      (∀ pick' : Nat → Int × Int,
        (∀ i : Nat, (i : Int) < column4.w * column4.h / 4 → pick' i = (2, 3)) →
          column4.RandomInit pick' = some l') ∧
      (∀ i : Nat, (i : Int) < column4.w * column4.h / 4 → l'.a.Get 2 3 = some true) ∧
      (∀ c r, 0 ≤ c → c < column4.w → 0 ≤ r → r < column4.h →
        column4.a.Get c r = some true → l'.a.Get c r = some true) ∧
      (∀ c r, 0 ≤ c → c < column4.w → 0 ≤ r → r < column4.h → l'.a.Get c r = some true →
        column4.a.Get c r = some true ∨
          ∃ i : Nat, (i : Int) < column4.w * column4.h / 4 ∧ ((2, 3) : Int × Int) = (c, r)) ∧
      l'.b = column4.b ∧ l'.w = column4.w ∧ l'.h = column4.h ∧
      ((∀ c r, 0 ≤ c → c < column4.w → 0 ≤ r → r < column4.h →
          column4.a.Get c r = some false) →
        (l'.a.liveCount : Int) ≤ column4.w * column4.h / 4 ∧
          (4 ≤ column4.w * column4.h → 1 ≤ l'.a.liveCount)) :=
  RandomInit_sets_only_alive column4 (by decide) (by decide) (by decide) (by decide)
    (fun _ => (2, 3))
    (fun _ _ => (by decide :
      (0 : Int) ≤ 2 ∧ (2 : Int) < column4.w ∧ (0 : Int) ≤ 3 ∧ (3 : Int) < column4.h))


/-! ## Interleavings of the two goroutines -/

theorem Step_eq_fill_swap (l : Life) : l.Step = (l.stepFill).map Life.stepSwap := by
  unfold Life.Step Life.stepFill
  cases (List.range l.h.toNat).foldlM
    (fun (b : Field) (y : Nat) => (List.range l.w.toNat).foldlM
      (fun (b : Field) (x : Nat) => do
        let v ← l.a.Next (x : Int) (y : Int)
        b.Set (x : Int) (y : Int) v) b) l.b with
  | none => rfl
  | some b => rfl

theorem runPieces_eq_runOp (w : World) (op : Op) :
    op.pieces.foldlM runPiece w = runOp w op := by
  cases op with
  | step =>
    simp only [Op.pieces, List.foldlM_cons, List.foldlM_nil, runPiece, runOp, Step_eq_fill_swap]
    cases w.life.stepFill <;> rfl
  | toggle x y =>
    simp only [Op.pieces, List.foldlM_cons, List.foldlM_nil, runPiece, runOp]
    cases w.life.Toggle x y <;> rfl
  | clear =>
    simp only [Op.pieces, List.foldlM_cons, List.foldlM_nil, runPiece, runOp]
    cases w.life.Clear <;> rfl
  | publish =>
    simp only [Op.pieces, List.foldlM_cons, List.foldlM_nil, runPiece, runOp]
    cases LifeToMidi w.life w.out <;> rfl

theorem runPieces_eq_runOps (ops : List Op) :
    ∀ w : World, (ops.flatMap Op.pieces).foldlM runPiece w = ops.foldlM runOp w := by
  induction ops with
  | nil => intro w; rfl
  | cons op ops ih =>
    intro w
    rw [List.flatMap_cons, List.foldlM_append, runPieces_eq_runOp, List.foldlM_cons]
    cases runOp w op with
    | none => rfl
    | some w1 => exact ih w1

theorem runOp_total (w : World) (op : Op) (hl : w.life.WF) (hw : 1 ≤ w.life.w)
    (hh : 1 ≤ w.life.h)
    (hin : ∀ x y, op = Op.toggle x y → 0 ≤ x ∧ x < w.life.w ∧ 0 ≤ y ∧ y < w.life.h) :
    ∃ w', runOp w op = some w' ∧ w'.life.WF ∧ w'.life.w = w.life.w ∧ w'.life.h = w.life.h := by
  cases op with
  | step =>
    obtain ⟨l', e, hwf, e1, e2, _⟩ := Step_spec w.life hl hw hh _
      (fun c r h1 h2 h3 h4 => Get_getD w.life.a hl.1 c r h1 (by rw [hl.2.2.1]; exact h2) h3
        (by rw [hl.2.2.2.1]; exact h4))
    exact ⟨{ w with life := l' }, by simp [runOp, e], hwf, e1, e2⟩
  | toggle x y =>
    obtain ⟨a1, a2, a3, a4⟩ := hin x y rfl
    obtain ⟨l', _, _, e, hwf, e1, e2, _⟩ := Toggle_spec w.life hl x y a1 a2 a3 a4
    exact ⟨{ w with life := l' }, by simp [runOp, e], hwf, e1, e2⟩
  | clear =>
    obtain ⟨l', e, hwf, e1, e2, _⟩ := Clear_spec w.life hl
    exact ⟨{ w with life := l' }, by simp [runOp, e], hwf, e1, e2⟩
  | publish =>
    obtain ⟨o, ho⟩ : ∃ o, LifeToMidi w.life w.out = some o := ⟨_, LifeToMidi_eq w.life hl w.out⟩
    refine ⟨{ w with out := o }, ?_, hl, rfl, rfl⟩
    simp only [runOp, ho, Option.bind_eq_bind, Option.some_bind]

theorem runOps_total (ops : List Op) :
    ∀ w : World, w.life.WF → 1 ≤ w.life.w → 1 ≤ w.life.h →
      (∀ x y, Op.toggle x y ∈ ops → 0 ≤ x ∧ x < w.life.w ∧ 0 ≤ y ∧ y < w.life.h) →
      ∃ w', ops.foldlM runOp w = some w' ∧ w'.life.WF ∧ w'.life.w = w.life.w ∧
        w'.life.h = w.life.h := by
  induction ops with
  | nil => intro w hl _ _ _; exact ⟨w, rfl, hl, rfl, rfl⟩
  | cons op ops ih =>
    intro w hl hw hh hin
    obtain ⟨w1, e1, hl1, hw1, hh1⟩ := runOp_total w op hl hw hh
      (fun x y h => hin x y (by rw [h]; exact List.mem_cons_self _ _))
    obtain ⟨w2, e2, hl2, hw2, hh2⟩ := ih w1 hl1 (by omega) (by omega)
      (fun x y h => by rw [hw1, hh1]; exact hin x y (List.mem_cons_of_mem _ h))
    refine ⟨w2, ?_, hl2, hw2.trans hw1, hh2.trans hh1⟩
    rw [List.foldlM_cons, e1]
    exact e2


/-- C15, as stated for every interleaving, fails when the input consumer runs
between the loops and the swap of `Step`. On the 8 x 8 life with the column
`(1,0), (1,1), (1,2)`, reached from `NewLife(8, 8)` by three toggles, the
schedule loops of `Step`, `Toggle(0, 0)`, swap of `Step` ends with the current
grid of `Step` alone: the toggle went to the field that the swap made the
staging one. That grid is neither the one of `Step` then `Toggle(0, 0)` nor the
one of `Toggle(0, 0)` then `Step`, the two sequential orders of these
operations. -/
theorem toggle_between_fill_and_swap_is_lost :
    (∃ l0 l1 l2, NewLife 8 8 = some l0 ∧ l0.Toggle 1 0 = some l1 ∧ l1.Toggle 1 1 = some l2 ∧
      l2.Toggle 1 2 = some column8) ∧
    ∃ w ws wa wb,
      [Piece.fill, Piece.toggle 0 0, Piece.swap].foldlM runPiece ⟨column8, []⟩ = some w ∧
      [Op.step].foldlM runOp ⟨column8, []⟩ = some ws ∧
      [Op.step, Op.toggle 0 0].foldlM runOp ⟨column8, []⟩ = some wa ∧
      [Op.toggle 0 0, Op.step].foldlM runOp ⟨column8, []⟩ = some wb ∧
      w.life.a = ws.life.a ∧ w.life.a.Get 0 0 = some false ∧
      wa.life.a.Get 0 0 = some true ∧ wb.life.a.Get 0 0 = some true ∧
      w.life.a ≠ wa.life.a ∧ w.life.a ≠ wb.life.a :=
  ⟨⟨_, _, _, rfl, rfl, rfl, rfl⟩,
    _, _, _, _, rfl, rfl, rfl, rfl, by decide, by decide, by decide, by decide, by decide,
    by decide⟩

/-- C15, amended to the interleavings in which no operation starts inside
another: when every operation of the two goroutines runs from its first piece
to its last before the next one starts, and the toggles are in bounds, the
schedule returns, and after each operation, so before each publish and at the
end, the shared state is the one that the whole operations run one after the
other give. -/
theorem serial_schedule_is_sequential (ops : List Op) (w : World) (hl : w.life.WF)
    (hw : 1 ≤ w.life.w) (hh : 1 ≤ w.life.h)
    (hin : ∀ x y, Op.toggle x y ∈ ops → 0 ≤ x ∧ x < w.life.w ∧ 0 ≤ y ∧ y < w.life.h) :
    ∀ pre post : List Op, ops = pre ++ post →
      ∃ w', (pre.flatMap Op.pieces).foldlM runPiece w = some w' ∧
        pre.foldlM runOp w = some w' ∧
        w'.life.WF ∧ w'.life.w = w.life.w ∧ w'.life.h = w.life.h ∧
        (ops.flatMap Op.pieces).foldlM runPiece w
          = (post.flatMap Op.pieces).foldlM runPiece w' := by
  intro pre post hsplit
  obtain ⟨w', e, hl', hw', hh'⟩ := runOps_total pre w hl hw hh
    (fun x y h => hin x y (by rw [hsplit]; exact List.mem_append_left _ h))
  refine ⟨w', ?_, e, hl', hw', hh', ?_⟩
  · rw [runPieces_eq_runOps, e]
  · rw [hsplit, List.flatMap_append, List.foldlM_append, runPieces_eq_runOps pre, e]
    rfl

/-- C15, instance: a publish, a step, a press and a publish, one after the
other, on the 8 x 8 column; the state before the press is the one after the
whole publish and the whole step. -/
theorem serial_schedule_is_sequential_witness :
    ∃ w', (([Op.publish, Op.step] : List Op).flatMap Op.pieces).foldlM runPiece
          ⟨column8, []⟩ = some w' ∧
        ([Op.publish, Op.step] : List Op).foldlM runOp ⟨column8, []⟩ = some w' ∧
        w'.life.WF ∧ w'.life.w = (⟨column8, []⟩ : World).life.w ∧
        w'.life.h = (⟨column8, []⟩ : World).life.h ∧
        (([Op.publish, Op.step, Op.toggle 0 0, Op.publish] : List Op).flatMap
            Op.pieces).foldlM runPiece ⟨column8, []⟩
          = (([Op.toggle 0 0, Op.publish] : List Op).flatMap Op.pieces).foldlM runPiece w' :=
  serial_schedule_is_sequential [Op.publish, Op.step, Op.toggle 0 0, Op.publish] ⟨column8, []⟩
    (by decide) (by decide) (by decide)
    (by
      intro x y h
      simp only [List.mem_cons, List.mem_singleton, List.not_mem_nil, or_false, Op.toggle.injEq,
        false_or, reduceCtorEq] at h
      obtain ⟨rfl, rfl⟩ := h
      decide)
    [Op.publish, Op.step] [Op.toggle 0 0, Op.publish] rfl

end game
